import Mathlib

/-!
Verification of the Mountain Made order-lifecycle and backup/restore subsystem.

The JavaScript source is shallowly embedded in Lean:
* strings manipulated by the code are `List Char`;
* database tables are lists of typed row records;
* a transaction is a pure function from the database state to either a new
  state (commit) or the original state plus an error (rollback);
* fallible queries are driven by an explicit oracle `Nat → Option DbFail`
  assigning to each query (numbered in execution order) an optional failure.

Sources embedded here:
* `src/models/Order.js` — `buildOrderNumberBase`, `generateOrderNumber`,
  `Order.create`;
* `src/README.md` (admin controller) — `updateOrderStatus`;
* `src/controllers/restoreController.js` — `splitSqlStatements` and the
  post-restore verification / recovery logic of `restoreDatabase`;
* `src/controllers/backupController.js` — `createBackupInternal`.
-/

set_option linter.unusedVariables false

deriving instance DecidableEq for Except

namespace MountainMade

/-! ### Character utilities

`isWhiteChar` models the whitespace stripped by JavaScript `String.trim`
(restricted to the ASCII whitespace that can occur in this code's strings).
`isWordChar` models the regex class `[A-Za-z0-9_]` used by the dollar-quote
tag pattern in `splitSqlStatements`. -/

def isWhiteChar (c : Char) : Bool :=
  c = ' ' || c = '\t' || c = '\n' || c = '\r'

def isWordChar (c : Char) : Bool :=
  c.isAlphanum || c = '_'

/-- JavaScript `String.prototype.trim` over `List Char`. -/
def trimChars (l : List Char) : List Char :=
  ((l.dropWhile isWhiteChar).reverse.dropWhile isWhiteChar).reverse

theorem dropWhile_eq_self_of_all {p : Char → Bool} {l : List Char}
    (h : ∀ c ∈ l, p c = false) : l.dropWhile p = l := by
  cases l with
  | nil => rfl
  | cons a rest =>
    have ha : p a = false := h a (List.mem_cons_self a rest)
    simp [List.dropWhile, ha]

theorem trimChars_eq_self_of_no_white {l : List Char}
    (h : ∀ c ∈ l, isWhiteChar c = false) : trimChars l = l := by
  unfold trimChars
  rw [dropWhile_eq_self_of_all h]
  rw [dropWhile_eq_self_of_all (by intro c hc; exact h c (List.mem_reverse.mp hc))]
  exact List.reverse_reverse l

/-! ### Decimal rendering of numbers

`natChars n` embeds JavaScript `String(n)` for a natural number `n`
(the order-number code renders day, month, year and suffixes this way),
and `charsToNat` embeds `parseInt(ds, 10)` on a string of decimal digits. -/

def natCharsF : Nat → Nat → List Char
  | 0, _ => []
  | fuel + 1, n =>
    if n < 10 then [Nat.digitChar n]
    else natCharsF fuel (n / 10) ++ [Nat.digitChar (n % 10)]

/-- `String(n)` for a natural number, via fuel-based structural recursion
(the fuel `n + 1` always suffices, as each step divides by 10). -/
def natChars (n : Nat) : List Char := natCharsF (n + 1) n

theorem natCharsF_congr : ∀ n f1 f2, n < f1 → n < f2 →
    natCharsF f1 n = natCharsF f2 n := by
  intro n
  induction n using Nat.strong_induction_on with
  | _ n ih =>
    intro f1 f2 h1 h2
    match f1, f2 with
    | g1 + 1, g2 + 1 =>
      show natCharsF (g1 + 1) n = natCharsF (g2 + 1) n
      rw [natCharsF, natCharsF]
      by_cases h : n < 10
      · simp [h]
      · simp only [h, if_neg, not_false_iff, if_false]
        rw [ih (n / 10) (Nat.div_lt_self (by omega) (by omega)) g1 g2
          (by omega) (by omega)]

theorem natChars_lt {n : Nat} (h : n < 10) : natChars n = [Nat.digitChar n] := by
  rw [natChars, natCharsF]; simp [h]

theorem natChars_ge {n : Nat} (h : ¬ n < 10) :
    natChars n = natChars (n / 10) ++ [Nat.digitChar (n % 10)] := by
  rw [natChars, natCharsF]
  simp only [h, if_neg, not_false_iff, if_false]
  rw [natCharsF_congr (n / 10) n (n / 10 + 1)
    (Nat.div_lt_self (by omega) (by omega)) (by omega)]
  rfl

def charVal (c : Char) : Nat := c.toNat - 48

def charsToNatAux (acc : Nat) : List Char → Nat
  | [] => acc
  | c :: rest => charsToNatAux (acc * 10 + charVal c) rest

def charsToNat (l : List Char) : Nat := charsToNatAux 0 l

theorem charsToNatAux_nil (acc : Nat) : charsToNatAux acc [] = acc := rfl

theorem charsToNatAux_cons (acc : Nat) (c : Char) (rest : List Char) :
    charsToNatAux acc (c :: rest) = charsToNatAux (acc * 10 + charVal c) rest := rfl

theorem charsToNatAux_append (l r : List Char) (acc : Nat) :
    charsToNatAux acc (l ++ r) = charsToNatAux (charsToNatAux acc l) r := by
  induction l generalizing acc with
  | nil => rfl
  | cons c rest ih =>
    rw [List.cons_append, charsToNatAux_cons, charsToNatAux_cons]
    exact ih _

theorem charVal_digitChar {d : Nat} (h : d < 10) :
    charVal (Nat.digitChar d) = d := by
  interval_cases d <;> decide

theorem digitChar_isDigit {d : Nat} (h : d < 10) :
    (Nat.digitChar d).isDigit = true := by
  interval_cases d <;> decide

theorem natChars_ne_nil (n : Nat) : natChars n ≠ [] := by
  by_cases h : n < 10
  · rw [natChars_lt h]; simp
  · rw [natChars_ge h]; simp

theorem charsToNat_natChars (n : Nat) : charsToNat (natChars n) = n := by
  induction n using Nat.strong_induction_on with
  | _ n ih =>
    by_cases h : n < 10
    · rw [charsToNat, natChars_lt h, charsToNatAux_cons, charsToNatAux_nil]
      simpa using charVal_digitChar h
    · rw [charsToNat, natChars_ge h, charsToNatAux_append]
      have hdiv : n / 10 < n := Nat.div_lt_self (by omega) (by omega)
      have ihd := ih (n / 10) hdiv
      rw [charsToNat] at ihd
      rw [ihd, charsToNatAux_cons, charsToNatAux_nil,
        charVal_digitChar (Nat.mod_lt n (by omega))]
      omega

theorem natChars_injective {a b : Nat} (h : natChars a = natChars b) : a = b := by
  have := charsToNat_natChars a
  rw [h, charsToNat_natChars] at this
  exact this.symm

theorem natChars_all_digit (n : Nat) : ∀ c ∈ natChars n, c.isDigit = true := by
  induction n using Nat.strong_induction_on with
  | _ n ih =>
    intro c hc
    by_cases h : n < 10
    · rw [natChars_lt h] at hc
      simp at hc
      rw [hc]; exact digitChar_isDigit h
    · rw [natChars_ge h] at hc
      rw [List.mem_append] at hc
      rcases hc with hc | hc
      · exact ih (n / 10) (Nat.div_lt_self (by omega) (by omega)) c hc
      · simp at hc
        rw [hc]; exact digitChar_isDigit (Nat.mod_lt n (by omega))

theorem natChars_length_one {n : Nat} (h : n < 10) : (natChars n).length = 1 := by
  rw [natChars_lt h]; rfl

theorem natChars_length_le_two {n : Nat} (h : n < 100) : (natChars n).length ≤ 2 := by
  by_cases h10 : n < 10
  · rw [natChars_length_one h10]; omega
  · rw [natChars_ge h10, List.length_append]
    rw [natChars_length_one (show n / 10 < 10 by omega)]
    simp

theorem natChars_length_two {n : Nat} (h1 : 10 ≤ n) (h2 : n < 100) :
    (natChars n).length = 2 := by
  rw [natChars_ge (by omega), List.length_append]
  rw [natChars_length_one (show n / 10 < 10 by omega)]
  rfl

theorem natChars_head_ne_zero {n : Nat} (hn : n ≠ 0) :
    ∀ c, (natChars n).head? = some c → c ≠ '0' := by
  induction n using Nat.strong_induction_on with
  | _ n ih =>
    intro c hc
    by_cases h : n < 10
    · rw [natChars_lt h] at hc
      simp at hc
      subst hc
      interval_cases n
      all_goals first | (exact absurd rfl hn) | decide
    · rw [natChars_ge h, List.head?_append] at hc
      have hne := natChars_ne_nil (n / 10)
      cases hh : (natChars (n / 10)).head? with
      | none => exact absurd (List.head?_eq_none_iff.mp hh) hne
      | some d =>
        rw [hh] at hc
        simp at hc
        subst hc
        exact ih (n / 10) (Nat.div_lt_self (by omega) (by omega)) (by omega) d hh

/-! ### `splitSqlStatements` (src/controllers/restoreController.js, lines 163-221)

The hand-rolled statement splitter scans the SQL text with three states:
normal, inside a single-quoted literal (with `''` escapes), and inside a
dollar-quoted block.  `SqlScanState.inDollar ws` stores the word part of the
active dollar tag, so the full tag is `'$' :: ws ++ ['$']` (the JavaScript
variable `dollarQuoteTag` stores that full tag).  Characters are consumed
into `acc`, the running slice of the current statement; a semicolon seen in
the normal state emits `trim(acc ++ [';'])` as one statement. -/

def squoteChar : Char := Char.ofNat 39

inductive SqlScanState where
  | normal : SqlScanState
  | inSingle : SqlScanState
  | inDollar (ws : List Char) : SqlScanState
deriving DecidableEq, Repr

/-- The regex `/^\$[A-Za-z0-9_]*\$/`: anchored at the current character, a
dollar, a (maximal) run of word characters, then another dollar.  Returns the
word part of the matched tag. -/
def dollarTagWord (l : List Char) : Option (List Char) :=
  match l with
  | '$' :: rest =>
    (match rest.drop ((rest.takeWhile isWordChar).length) with
     | '$' :: _ => some (rest.takeWhile isWordChar)
     | _ => none)
  | _ => none

/-- One step of the scanner: `recur` is the continuation for the remaining
input (the recursive occurrence of the loop).  Taken directly from the `for`
loop body of `splitSqlStatements`. -/
def splitBody (recur : SqlScanState → List Char → List Char → List (List Char))
    (state : SqlScanState) (acc input : List Char) : List (List Char) :=
  match input with
  | [] =>
    -- const trailing = sqlContent.slice(start).trim(); if (trailing) push
    let t := trimChars acc
    if t = [] then [] else [t]
  | c :: rest =>
    match state with
    | .inSingle =>
      if c = squoteChar then
        match rest with
        | c2 :: rest2 =>
          if c2 = squoteChar then
            -- escaped quote: index += 1; continue
            recur .inSingle (acc ++ [c, c2]) rest2
          else
            recur .normal (acc ++ [c]) (c2 :: rest2)
        | [] => recur .normal (acc ++ [c]) []
      else recur .inSingle (acc ++ [c]) rest
    | .inDollar ws =>
      if ('$' :: ws ++ ['$']).isPrefixOf (c :: rest) then
        -- closing tag found: index += dollarQuoteTag.length - 1
        recur .normal (acc ++ ('$' :: ws ++ ['$'])) ((c :: rest).drop (ws.length + 2))
      else recur (.inDollar ws) (acc ++ [c]) rest
    | .normal =>
      if c = squoteChar then recur .inSingle (acc ++ [c]) rest
      else if c = '$' then
        match dollarTagWord (c :: rest) with
        | some ws =>
          recur (.inDollar ws) (acc ++ ('$' :: ws ++ ['$'])) ((c :: rest).drop (ws.length + 2))
        | none => recur .normal (acc ++ [c]) rest
      else if c = ';' then
        -- statement boundary: push trim(slice(start, index+1)) if nonempty
        (let t := trimChars (acc ++ [c]); if t = [] then [] else [t]) ++
          recur .normal [] rest
      else recur .normal (acc ++ [c]) rest

def splitF : Nat → SqlScanState → List Char → List Char → List (List Char)
  | 0, _, _, _ => []
  | fuel + 1, state, acc, input => splitBody (splitF fuel) state acc input

/-- The scanner loop of `splitSqlStatements`.  Each step consumes at least one
input character, so the fuel `input.length + 1` always suffices
(`splitF_congr` below shows the result does not depend on the fuel). -/
def splitAux (state : SqlScanState) (acc : List Char) (input : List Char) :
    List (List Char) :=
  splitF (input.length + 1) state acc input

theorem splitF_succ (fuel : Nat) (state : SqlScanState) (acc input : List Char) :
    splitF (fuel + 1) state acc input = splitBody (splitF fuel) state acc input := rfl

theorem splitF_congrAux : ∀ n (input : List Char), input.length ≤ n →
    ∀ f1 f2 state acc, input.length < f1 → input.length < f2 →
    splitF f1 state acc input = splitF f2 state acc input := by
  intro n
  induction n with
  | zero =>
    intro input hlen f1 f2 state acc h1 h2
    match input, f1, f2 with
    | [], g1 + 1, g2 + 1 => rfl
  | succ n ih =>
    intro input hlen f1 f2 state acc h1 h2
    match input, f1, f2 with
    | [], g1 + 1, g2 + 1 => rfl
    | c :: rest, g1 + 1, g2 + 1 =>
      have hr : rest.length ≤ n := by
        simp only [List.length_cons] at hlen; omega
      have hlt1 : rest.length < g1 := by
        simp only [List.length_cons] at h1; omega
      have hlt2 : rest.length < g2 := by
        simp only [List.length_cons] at h2; omega
      rw [splitF_succ, splitF_succ]
      cases state with
      | inSingle =>
        simp only [splitBody]
        by_cases hc : c = squoteChar
        · rw [if_pos hc, if_pos hc]
          cases rest with
          | nil => exact ih [] (by simp) g1 g2 _ _ (by omega) (by omega)
          | cons c2 rest2 =>
            dsimp only
            simp only [List.length_cons] at hr hlt1 hlt2
            by_cases hc2 : c2 = squoteChar
            · rw [if_pos hc2, if_pos hc2]
              exact ih rest2 (by omega) g1 g2 _ _ (by omega) (by omega)
            · rw [if_neg hc2, if_neg hc2]
              exact ih (c2 :: rest2) (by simp; omega) g1 g2 _ _
                (by simp; omega) (by simp; omega)
        · rw [if_neg hc, if_neg hc]
          exact ih rest hr g1 g2 _ _ hlt1 hlt2
      | inDollar ws =>
        simp only [splitBody]
        by_cases hp : ('$' :: ws ++ ['$']).isPrefixOf (c :: rest)
        · rw [if_pos hp, if_pos hp]
          refine ih ((c :: rest).drop (ws.length + 2)) ?_ g1 g2 _ _ ?_ ?_ <;>
            rw [List.length_drop] <;> simp only [List.length_cons] <;> omega
        · rw [if_neg hp, if_neg hp]
          exact ih rest hr g1 g2 _ _ hlt1 hlt2
      | normal =>
        simp only [splitBody]
        by_cases hc : c = squoteChar
        · rw [if_pos hc, if_pos hc]
          exact ih rest hr g1 g2 _ _ hlt1 hlt2
        · rw [if_neg hc, if_neg hc]
          by_cases hd : c = '$'
          · rw [if_pos hd, if_pos hd]
            cases htag : dollarTagWord (c :: rest) with
            | some ws =>
              refine ih ((c :: rest).drop (ws.length + 2)) ?_ g1 g2 _ _ ?_ ?_ <;>
                rw [List.length_drop] <;> simp only [List.length_cons] <;> omega
            | none =>
              exact ih rest hr g1 g2 _ _ hlt1 hlt2
          · rw [if_neg hd, if_neg hd]
            by_cases hs : c = ';'
            · rw [if_pos hs, if_pos hs]
              rw [ih rest hr g1 g2 _ _ hlt1 hlt2]
            · rw [if_neg hs, if_neg hs]
              exact ih rest hr g1 g2 _ _ hlt1 hlt2

theorem splitF_congr {f1 f2 : Nat} (state : SqlScanState) (acc input : List Char)
    (h1 : input.length < f1) (h2 : input.length < f2) :
    splitF f1 state acc input = splitF f2 state acc input :=
  splitF_congrAux input.length input (Nat.le_refl _) f1 f2 state acc h1 h2

/-- `splitSqlStatements` from src/controllers/restoreController.js. -/
def splitSqlStatements (sqlContent : List Char) : List (List Char) :=
  splitAux .normal [] sqlContent

theorem semi_not_white : isWhiteChar ';' = false := by decide

theorem mem_dropWhile_append_semi (l : List Char) :
    ';' ∈ (l ++ [';']).dropWhile isWhiteChar := by
  induction l with
  | nil => decide
  | cons a r ih =>
    rw [List.cons_append, List.dropWhile]
    cases h : isWhiteChar a with
    | true => simpa using ih
    | false => simp

theorem trimChars_append_semi_ne_nil (l : List Char) :
    trimChars (l ++ [';']) ≠ [] := by
  intro hnil
  unfold trimChars at hnil
  rw [List.reverse_eq_nil_iff, List.dropWhile_eq_nil_iff] at hnil
  have hmem : ';' ∈ ((l ++ [';']).dropWhile isWhiteChar).reverse :=
    List.mem_reverse.mpr (mem_dropWhile_append_semi l)
  have := hnil _ hmem
  simp [isWhiteChar] at this

theorem splitAux_inSingle_semi (acc rest : List Char) :
    splitAux .inSingle acc (';' :: rest) =
      splitAux .inSingle (acc ++ [';']) rest := by
  show splitF (rest.length + 1 + 1) .inSingle acc (';' :: rest) = _
  rw [splitF_succ]
  simp only [splitBody]
  rw [if_neg (by decide : (';' : Char) ≠ squoteChar)]
  rfl

theorem splitAux_inDollar_semi (ws acc rest : List Char) :
    splitAux (.inDollar ws) acc (';' :: rest) =
      splitAux (.inDollar ws) (acc ++ [';']) rest := by
  show splitF (rest.length + 1 + 1) (.inDollar ws) acc (';' :: rest) = _
  rw [splitF_succ]
  simp only [splitBody]
  rw [if_neg (by simp [List.isPrefixOf] :
    ¬ ('$' :: ws ++ ['$']).isPrefixOf (';' :: rest) = true)]
  rfl

theorem splitAux_normal_semi (acc rest : List Char) :
    splitAux .normal acc (';' :: rest) =
      trimChars (acc ++ [';']) :: splitAux .normal [] rest := by
  show splitF (rest.length + 1 + 1) .normal acc (';' :: rest) = _
  rw [splitF_succ]
  simp only [splitBody]
  rw [if_neg (by decide : (';' : Char) ≠ squoteChar)]
  rw [if_neg (by decide : (';' : Char) ≠ '$')]
  rw [if_pos trivial]
  rw [if_neg (trimChars_append_semi_ne_nil acc)]
  rfl

theorem splitAux_normal_quote (acc rest : List Char) :
    splitAux .normal acc (squoteChar :: rest) =
      splitAux .inSingle (acc ++ [squoteChar]) rest := by
  show splitF (rest.length + 1 + 1) .normal acc (squoteChar :: rest) = _
  rw [splitF_succ]
  simp only [splitBody]
  rw [if_pos trivial]
  rfl

theorem splitAux_inSingle_pair (acc rest : List Char) :
    splitAux .inSingle acc (squoteChar :: squoteChar :: rest) =
      splitAux .inSingle (acc ++ [squoteChar, squoteChar]) rest := by
  show splitF (rest.length + 1 + 1 + 1) .inSingle acc
    (squoteChar :: squoteChar :: rest) = _
  rw [splitF_succ]
  simp only [splitBody]
  rw [if_pos trivial, if_pos trivial]
  exact splitF_congr _ _ _ (by omega) (by omega)

/-- C9: `splitSqlStatements` splits only at semicolons scanned in the normal
state.  The conjuncts are step equations of the scanner `splitAux` (of which
`splitSqlStatements` is the top-level run): a semicolon consumed while inside
a single-quoted literal, or inside a dollar-quoted block, is appended to the
current statement and never emits a statement; a semicolon in the normal
state ends exactly one statement (`trim` of the accumulated slice including
the semicolon, which is never empty); a quote in normal state enters the
single-quote state, and a doubled quote inside a literal stays inside it. -/
theorem claim_C9_splitSqlStatements :
    (∀ acc rest, splitAux .inSingle acc (';' :: rest) =
        splitAux .inSingle (acc ++ [';']) rest) ∧
    (∀ ws acc rest, splitAux (.inDollar ws) acc (';' :: rest) =
        splitAux (.inDollar ws) (acc ++ [';']) rest) ∧
    (∀ acc rest, splitAux .normal acc (';' :: rest) =
        trimChars (acc ++ [';']) :: splitAux .normal [] rest) ∧
    (∀ acc rest, splitAux .normal acc (squoteChar :: rest) =
        splitAux .inSingle (acc ++ [squoteChar]) rest) ∧
    (∀ acc rest, splitAux .inSingle acc (squoteChar :: squoteChar :: rest) =
        splitAux .inSingle (acc ++ [squoteChar, squoteChar]) rest) :=
  ⟨splitAux_inSingle_semi, splitAux_inDollar_semi, splitAux_normal_semi,
    splitAux_normal_quote, splitAux_inSingle_pair⟩

example :
    splitSqlStatements ("select 1; insert into t values (';');".toList) =
      ["select 1;".toList, "insert into t values (';');".toList] := by decide

example :
    splitSqlStatements ("a $tag$ x; y $tag$; b;".toList) =
      ["a $tag$ x; y $tag$;".toList, "b;".toList] := by decide

/-! ### Order numbers (src/models/Order.js, lines 4-36)

`buildOrderNumberBase` renders the base code `MM<dd><mm><yyyy>` for a calendar
date (`JsDate.month` is already 1-based, i.e. `date.getMonth() + 1`).
`generateOrderNumber` embeds the allocation query plus the JavaScript
post-processing: the SQL `WHERE order_number = base OR order_number LIKE
'base-%'` filter, the `trim`/`filter(Boolean)` cleanup, the `includes` check
and the `^base-(\d+)$` suffix scan. -/

structure JsDate where
  day : Nat
  month : Nat
  year : Nat
deriving DecidableEq, Repr

/-- `String(n).padStart(2, '0')`. -/
def padStart2 (l : List Char) : List Char :=
  List.replicate (2 - l.length) '0' ++ l

def buildOrderNumberBase (d : JsDate) : List Char :=
  'M' :: 'M' :: (padStart2 (natChars d.day) ++ padStart2 (natChars d.month) ++ natChars d.year)

/-- SQL `order_number LIKE 'base-%'` (the base contains no LIKE wildcards). -/
def likeBaseDash (base s : List Char) : Bool :=
  (base ++ ['-']).isPrefixOf s

/-- The rows returned by the allocation query's WHERE clause. -/
def fetchOrderNumbers (base : List Char) (rows : List (List Char)) : List (List Char) :=
  rows.filter (fun s => (s == base) || likeBaseDash base s)

/-- `result.rows.map(r => String(r.order_number || '').trim()).filter(Boolean)`. -/
def existingOrderNumbers (base : List Char) (rows : List (List Char)) : List (List Char) :=
  ((fetchOrderNumbers base rows).map trimChars).filter (fun s => !s.isEmpty)

/-- `orderNumber.match(new RegExp(`^base-(\d+)$`))` followed by
`parseInt(match[1], 10)`. -/
def matchBaseSuffix (base s : List Char) : Option Nat :=
  if (base ++ ['-']).isPrefixOf s then
    (let ds := s.drop (base.length + 1)
     if ds = [] then none
     else if ds.all Char.isDigit then some (charsToNat ds) else none)
  else none

/-- The `maxSuffix` loop: starts at 1 and takes the maximum parsed suffix. -/
def maxSuffixOf (base : List Char) (existing : List (List Char)) : Nat :=
  existing.foldl
    (fun acc s =>
      match matchBaseSuffix base s with
      | some v => if v > acc then v else acc
      | none => acc) 1

def withSuffix (base : List Char) (k : Nat) : List Char :=
  base ++ '-' :: natChars k

/-- `Order.generateOrderNumber(client, base)` as a function of the stored
order numbers (`rows`). -/
def generateOrderNumber (base : List Char) (rows : List (List Char)) : List Char :=
  let existing := existingOrderNumbers base rows
  if base ∈ existing then withSuffix base (maxSuffixOf base existing + 1)
  else base

/-! ### Data model

Rows of the tables touched by the order lifecycle.  Monetary amounts are
embedded as `Int` (the code performs no arithmetic on them inside
`Order.create`; the quick-buy route computes `price * quantity`).
`order_items.product_id` and `order_items.quantity` are nullable in the
database (product deletion nulls the reference), hence `Option`.
`orderSeq` models the serial id sequence for `orders`.  The `updated_at`
timestamp column is not modeled. -/

structure ProductRow where
  id : Nat
  stock_quantity : Int
deriving DecidableEq, Repr

structure OrderRow where
  id : Nat
  user_id : Nat
  order_number : List Char
  total_amount : Int
  shipping_address : String
  payment_method : String
  notes : String
  status : String
  delivery_speed : Option String
  delivery_charge : Int
deriving DecidableEq, Repr

structure OrderItemRow where
  order_id : Nat
  product_id : Option Nat
  product_name : String
  quantity : Option Int
  price : Int
  subtotal : Int
deriving DecidableEq, Repr

structure CartRow where
  id : Nat
  user_id : Nat
deriving DecidableEq, Repr

structure DB where
  orders : List OrderRow
  order_items : List OrderItemRow
  products : List ProductRow
  cart : List CartRow
  orderSeq : Nat
deriving DecidableEq, Repr

/-! ### Failure model

Each `client.query` call of a transaction is numbered in execution order; an
oracle decides whether it throws, and with which class of error
(`unique` models SQLSTATE 23505, the only code the retry loop inspects). -/

inductive DbFail where
  | unique : DbFail
  | generic : DbFail
deriving DecidableEq, Repr

def Oracle := Nat → Option DbFail

inductive DbErr where
  | uniqueViolation (idx : Nat) : DbErr
  | queryError (idx : Nat) : DbErr
  | noUniqueNumber : DbErr
deriving DecidableEq, Repr

def mkDbErr (f : DbFail) (idx : Nat) : DbErr :=
  match f with
  | .unique => .uniqueViolation idx
  | .generic => .queryError idx

/-- The oracle that never injects a failure. -/
def noFail : Oracle := fun _ => none

/-! ### `Order.create` (src/models/Order.js, lines 38-137)

The whole body runs inside one `BEGIN`/`COMMIT` transaction with a
`catch { ROLLBACK; throw }`: on any error the returned state is the original
database.  `insertOrderAttempts` is the bounded retry loop (5 attempts): each
attempt issues the `generateOrderNumber` SELECT and the order INSERT, and
retries only when the insert fails with the unique-violation class and
attempts remain.  The insert itself re-checks uniqueness of the chosen number
against the stored orders (the database constraint is the real arbiter).
`insertItemsLoop` inserts one `order_items` row and decrements the matching
product's stock per input item; a null `product_id` matches no product row
(SQL `id = NULL`), so that update is a no-op.  Finally the user's cart rows
are deleted. -/

structure ItemInput where
  product_id : Option Nat
  product_name : String
  quantity : Int
  price : Int
  subtotal : Int
deriving DecidableEq, Repr

structure OrderData where
  user_id : Nat
  total_amount : Int
  shipping_address : String
  payment_method : String
  notes : String
  items : List ItemInput
  delivery_speed : Option String
  delivery_charge : Int
deriving DecidableEq, Repr

def mkOrderRow (db : DB) (data : OrderData) (orderNumber : List Char) : OrderRow :=
  { id := db.orderSeq
    user_id := data.user_id
    order_number := orderNumber
    total_amount := data.total_amount
    shipping_address := data.shipping_address
    payment_method := data.payment_method
    notes := data.notes
    status := "pending"
    delivery_speed := data.delivery_speed
    delivery_charge := data.delivery_charge }

def insertOrderAttempts (o : Oracle) (data : OrderData) (base : List Char) :
    Nat → DB → Nat → Except DbErr (OrderRow × DB × Nat)
  | 0, _, _ =>
    -- if (!order) throw new Error('Unable to generate unique order number')
    -- (unreachable: the final failed attempt rethrows its own error first)
    .error .noUniqueNumber
  | rem + 1, db, idx =>
    -- const orderNumber = await this.generateOrderNumber(client, orderBase)
    match o idx with
    | some f => .error (mkDbErr f idx)
    | none =>
      let orderNumber := generateOrderNumber base (db.orders.map (fun r => r.order_number))
      -- INSERT INTO orders (...) VALUES (...) RETURNING *
      match o (idx + 1) with
      | some .unique =>
        if rem = 0 then .error (.uniqueViolation (idx + 1))
        else insertOrderAttempts o data base rem db (idx + 2)
      | some .generic => .error (.queryError (idx + 1))
      | none =>
        if (db.orders.map (fun r => r.order_number)).contains orderNumber then
          -- the unique constraint on order_number fires (code '23505')
          if rem = 0 then .error (.uniqueViolation (idx + 1))
          else insertOrderAttempts o data base rem db (idx + 2)
        else
          let row := mkOrderRow db data orderNumber
          .ok (row, { db with orders := db.orders ++ [row], orderSeq := db.orderSeq + 1 }, idx + 2)

/-- The `order_items` row inserted for one input item. -/
def itemRowOf (orderId : Nat) (item : ItemInput) : OrderItemRow :=
  { order_id := orderId
    product_id := item.product_id
    product_name := item.product_name
    quantity := some item.quantity
    price := item.price
    subtotal := item.subtotal }

def insertItemsLoop (o : Oracle) (orderId : Nat) :
    List ItemInput → DB → Nat → Except DbErr (DB × Nat)
  | [], db, idx => .ok (db, idx)
  | item :: rest, db, idx =>
    -- INSERT INTO order_items (order_id, product_id, product_name, quantity, price, subtotal)
    match o idx with
    | some f => .error (mkDbErr f idx)
    | none =>
      let db1 := { db with order_items := db.order_items ++ [itemRowOf orderId item] }
      -- UPDATE products SET stock_quantity = stock_quantity - $1 WHERE id = $2
      match o (idx + 1) with
      | some f => .error (mkDbErr f (idx + 1))
      | none =>
        let db2 := { db1 with products := db1.products.map (fun p =>
          if item.product_id = some p.id then
            { p with stock_quantity := p.stock_quantity - item.quantity }
          else p) }
        insertItemsLoop o orderId rest db2 (idx + 2)

namespace Order

def create (o : Oracle) (today : JsDate) (data : OrderData) (db : DB) :
    DB × Except DbErr OrderRow :=
  -- await client.query('BEGIN')
  match insertOrderAttempts o data (buildOrderNumberBase today) 5 db 0 with
  | .error e => (db, .error e)      -- catch: ROLLBACK; throw
  | .ok (row, db1, idx) =>
    match insertItemsLoop o row.id data.items db1 idx with
    | .error e => (db, .error e)    -- catch: ROLLBACK; throw
    | .ok (db2, idx2) =>
      -- DELETE FROM cart WHERE user_id = $1
      match o idx2 with
      | some f => (db, .error (mkDbErr f idx2))
      | none =>
        let db3 := { db2 with cart := db2.cart.filter (fun r => ¬ r.user_id = data.user_id) }
        -- await client.query('COMMIT')
        (db3, .ok row)

end Order

/-! ### `updateOrderStatus` (src/README.md admin controller, lines 986-1059)

The controller validates the status against the five-value enum, row-locks
the target order, updates its status, and — only when the order was not
already cancelled and the new status is `cancelled` — iterates its line items
restoring product stock, skipping items whose `product_id` or `quantity` is
JavaScript-falsy (`null` or `0`).  The success path is deterministic, so no
failure oracle is threaded here (a thrown query rolls back exactly as in
`Order.create`). -/

def validStatuses : List String :=
  ["pending", "processing", "shipped", "delivered", "cancelled"]

inductive UpdateStatusResult where
  | invalidStatus : UpdateStatusResult
  | notFound : UpdateStatusResult
  | ok (order : OrderRow) : UpdateStatusResult
deriving DecidableEq, Repr

/-- JavaScript truthiness of `item.product_id` (`null` and `0` are falsy). -/
def jsTruthyId : Option Nat → Bool
  | none => false
  | some n => decide (n ≠ 0)

/-- JavaScript truthiness of `item.quantity` (`null` and `0` are falsy). -/
def jsTruthyQty : Option Int → Bool
  | none => false
  | some q => decide (q ≠ 0)

def qtyVal : Option Int → Int
  | none => 0
  | some q => q

/-- The stock-restore loop of the cancellation branch. -/
def restoreStockLoop (products : List ProductRow) :
    List OrderItemRow → List ProductRow
  | [] => products
  | item :: rest =>
    -- if (!item.product_id || !item.quantity) continue;
    if jsTruthyId item.product_id && jsTruthyQty item.quantity then
      restoreStockLoop
        (products.map (fun p =>
          if item.product_id = some p.id then
            { p with stock_quantity := p.stock_quantity + qtyVal item.quantity }
          else p))
        rest
    else restoreStockLoop products rest

def updateOrderStatus (db : DB) (id : Nat) (status : String) :
    DB × UpdateStatusResult :=
  if validStatuses.contains status then
    -- BEGIN; SELECT id, status FROM orders WHERE id = $1 FOR UPDATE
    match db.orders.find? (fun r => r.id == id) with
    | none => (db, .notFound)     -- ROLLBACK
    | some existingOrder =>
      let wasCancelled := existingOrder.status = "cancelled"
      let willBeCancelled := status = "cancelled"
      -- UPDATE orders SET status = $1, updated_at = CURRENT_TIMESTAMP
      --   WHERE id = $2 RETURNING *
      let newOrders := db.orders.map (fun r =>
        if r.id = id then { r with status := status } else r)
      let updatedRow := { existingOrder with status := status }
      let itemsOfOrder := db.order_items.filter (fun it => it.order_id == id)
      let newProducts :=
        if ¬ wasCancelled ∧ willBeCancelled then
          restoreStockLoop db.products itemsOfOrder
        else db.products
      -- COMMIT
      ({ db with orders := newOrders, products := newProducts }, .ok updatedRow)
  else (db, .invalidStatus)

/-! ### Characterization of `Order.create` -/

/-- Total stock decrement applied to product `pid` by the items loop of
`Order.create` (`UPDATE products SET stock_quantity = stock_quantity - $1
WHERE id = $2` per item; a null `product_id` matches nothing). -/
def decContribution (pid : Nat) : List ItemInput → Int
  | [] => 0
  | item :: rest =>
    (if item.product_id = some pid then item.quantity else 0) + decContribution pid rest

theorem decContribution_nil (pid : Nat) : decContribution pid [] = 0 := rfl

theorem decContribution_cons (pid : Nat) (item : ItemInput) (rest : List ItemInput) :
    decContribution pid (item :: rest) =
      (if item.product_id = some pid then item.quantity else 0) +
        decContribution pid rest := rfl

theorem insertItemsLoop_ok (o : Oracle) (orderId : Nat) :
    ∀ (items : List ItemInput) (db : DB) (idx : Nat) (db' : DB) (idx' : Nat),
    insertItemsLoop o orderId items db idx = .ok (db', idx') →
    db'.orders = db.orders ∧ db'.orderSeq = db.orderSeq ∧ db'.cart = db.cart ∧
    db'.order_items = db.order_items ++ items.map (itemRowOf orderId) ∧
    db'.products = db.products.map (fun p =>
      { p with stock_quantity := p.stock_quantity - decContribution p.id items }) := by
  intro items
  induction items with
  | nil =>
    intro db idx db' idx' h
    rw [insertItemsLoop] at h
    injection h with h'
    injection h' with h1 h2
    subst h1
    refine ⟨rfl, rfl, rfl, by simp, ?_⟩
    have : (fun p : ProductRow =>
        { p with stock_quantity := p.stock_quantity - decContribution p.id [] }) =
        fun p => p := by
      funext p
      cases p
      simp [decContribution_nil]
    rw [this, List.map_id']
  | cons item rest ih =>
    intro db idx db' idx' h
    rw [insertItemsLoop] at h
    cases ho : o idx with
    | some f => rw [ho] at h; exact absurd h (by simp)
    | none =>
      rw [ho] at h
      cases ho2 : o (idx + 1) with
      | some f => rw [ho2] at h; exact absurd h (by simp)
      | none =>
        rw [ho2] at h
        dsimp only at h
        obtain ⟨h1, h2, h3, h4, h5⟩ := ih _ _ _ _ h
        refine ⟨by simpa using h1, by simpa using h2, by simpa using h3, ?_, ?_⟩
        · rw [h4]
          simp
        · rw [h5]
          dsimp only
          rw [List.map_map]
          apply List.map_congr_left
          intro p hp
          simp only [Function.comp]
          rw [decContribution_cons]
          by_cases hm : item.product_id = some p.id
          · rw [if_pos hm, if_pos hm]
            cases p with
            | mk pid pstock =>
              simp only [ProductRow.mk.injEq]
              exact ⟨trivial, by omega⟩
          · rw [if_neg hm, if_neg hm]
            cases p with
            | mk pid pstock =>
              simp only [ProductRow.mk.injEq]
              exact ⟨trivial, by omega⟩

theorem insertOrderAttempts_ok (o : Oracle) (data : OrderData) (base : List Char) :
    ∀ (rem : Nat) (db : DB) (idx : Nat) (row : OrderRow) (db' : DB) (idx' : Nat),
    insertOrderAttempts o data base rem db idx = .ok (row, db', idx') →
    row = mkOrderRow db data
      (generateOrderNumber base (db.orders.map (fun r => r.order_number))) ∧
    db' = { db with orders := db.orders ++ [row], orderSeq := db.orderSeq + 1 } ∧
    ((db.orders.map (fun r => r.order_number)).contains row.order_number) = false := by
  intro rem
  induction rem with
  | zero =>
    intro db idx row db' idx' h
    rw [insertOrderAttempts] at h
    exact absurd h (by simp)
  | succ rem ih =>
    intro db idx row db' idx' h
    rw [insertOrderAttempts] at h
    cases ho : o idx with
    | some f => rw [ho] at h; exact absurd h (by simp)
    | none =>
      rw [ho] at h
      cases ho2 : o (idx + 1) with
      | some f =>
        cases f with
        | unique =>
          rw [ho2] at h
          dsimp only at h
          by_cases hrem : rem = 0
          · rw [if_pos hrem] at h; exact absurd h (by simp)
          · rw [if_neg hrem] at h
            exact ih db (idx + 2) row db' idx' h
        | generic =>
          rw [ho2] at h; exact absurd h (by simp)
      | none =>
        rw [ho2] at h
        dsimp only at h
        cases hc : (db.orders.map (fun r => r.order_number)).contains
            (generateOrderNumber base (db.orders.map (fun r => r.order_number))) with
        | true =>
          rw [hc] at h
          simp only [if_true] at h
          by_cases hrem : rem = 0
          · rw [if_pos hrem] at h; exact absurd h (by simp)
          · rw [if_neg hrem] at h
            exact ih db (idx + 2) row db' idx' h
        | false =>
          rw [hc] at h
          simp only [Bool.false_eq_true, if_false] at h
          injection h with h'
          injection h' with hrow h''
          injection h'' with hdb hidx
          subst hrow
          exact ⟨rfl, hdb.symm, hc⟩

/-- The database state after a fully committed `Order.create` transaction. -/
def appliedCreate (db : DB) (data : OrderData) (row : OrderRow) : DB :=
  { orders := db.orders ++ [row]
    order_items := db.order_items ++ data.items.map (itemRowOf row.id)
    products := db.products.map (fun p =>
      { p with stock_quantity := p.stock_quantity - decContribution p.id data.items })
    cart := db.cart.filter (fun r => ¬ r.user_id = data.user_id)
    orderSeq := db.orderSeq + 1 }

theorem create_ok_characterization (o : Oracle) (today : JsDate) (data : OrderData)
    (db : DB) (row : OrderRow) (h : (Order.create o today data db).2 = .ok row) :
    (Order.create o today data db).1 = appliedCreate db data row ∧
    row = mkOrderRow db data (generateOrderNumber (buildOrderNumberBase today)
      (db.orders.map (fun r => r.order_number))) ∧
    ((db.orders.map (fun r => r.order_number)).contains row.order_number) = false := by
  unfold Order.create at h ⊢
  cases h1 : insertOrderAttempts o data (buildOrderNumberBase today) 5 db 0 with
  | error e => rw [h1] at h; simp at h
  | ok v =>
    obtain ⟨row1, db1, idx1⟩ := v
    rw [h1] at h
    dsimp only at h ⊢
    cases h2 : insertItemsLoop o row1.id data.items db1 idx1 with
    | error e => rw [h2] at h; simp at h
    | ok v2 =>
      obtain ⟨db2, idx2⟩ := v2
      rw [h2] at h
      dsimp only at h ⊢
      cases h3 : o idx2 with
      | some f => rw [h3] at h; simp at h
      | none =>
        rw [h3] at h
        dsimp only at h ⊢
        injection h with hrow
        subst hrow
        obtain ⟨g1, g2, g3⟩ := insertOrderAttempts_ok o data _ 5 db 0 row1 db1 idx1 h1
        obtain ⟨k1, k2, k3, k4, k5⟩ := insertItemsLoop_ok o row1.id data.items db1 idx1 db2 idx2 h2
        refine ⟨?_, g1, g3⟩
        unfold appliedCreate
        subst g2
        have horders : db2.orders = db.orders ++ [row1] := by simpa using k1
        have hseq : db2.orderSeq = db.orderSeq + 1 := by simpa using k2
        have hcart : db2.cart = db.cart := by simpa using k3
        have hitems : db2.order_items = db.order_items ++ data.items.map (itemRowOf row1.id) := by
          simpa using k4
        have hprod : db2.products = db.products.map (fun p =>
            { p with stock_quantity := p.stock_quantity - decContribution p.id data.items }) := by
          simpa using k5
        cases db2
        simp_all

theorem create_error_rollback (o : Oracle) (today : JsDate) (data : OrderData)
    (db : DB) (e : DbErr) (h : (Order.create o today data db).2 = .error e) :
    (Order.create o today data db).1 = db := by
  unfold Order.create at h ⊢
  cases h1 : insertOrderAttempts o data (buildOrderNumberBase today) 5 db 0 with
  | error e1 => rfl
  | ok v =>
    obtain ⟨row1, db1, idx1⟩ := v
    rw [h1] at h
    dsimp only at h ⊢
    cases h2 : insertItemsLoop o row1.id data.items db1 idx1 with
    | error e2 => rfl
    | ok v2 =>
      obtain ⟨db2, idx2⟩ := v2
      rw [h2] at h
      dsimp only at h ⊢
      cases h3 : o idx2 with
      | some f => rfl
      | none => rw [h3] at h; simp at h

/-! ### Claims C1, C5, C6 -/

/-- C1: every failure of any step inside the `Order.create` transaction (the
order insert after retries, an order-item insert, a stock decrement, or the
cart clearing) rolls the whole operation back — the database state is
returned unchanged: no order row, no order_items rows, no stock change, cart
untouched.  The persisted order row is returned exactly when every step
committed, in which case the final state carries the order row, its item
rows, the stock decrements and the cleared cart (`appliedCreate`). -/
theorem claim_C1_create_transaction_atomicity :
    ∀ (o : Oracle) (today : JsDate) (data : OrderData) (db : DB),
      (∀ e, (Order.create o today data db).2 = .error e →
        (Order.create o today data db).1 = db) ∧
      (∀ row, (Order.create o today data db).2 = .ok row →
        (Order.create o today data db).1 = appliedCreate db data row) :=
  fun o today data db =>
    ⟨fun e he => create_error_rollback o today data db e he,
     fun row hr => (create_ok_characterization o today data db row hr).1⟩

def c1date : JsDate := ⟨12, 10, 2025⟩

def c1db : DB :=
  { orders := [], order_items := [],
    products := [⟨7, 10⟩], cart := [⟨1, 8⟩], orderSeq := 1 }

def c1data : OrderData :=
  { user_id := 8, total_amount := 100, shipping_address := "addr",
    payment_method := "cash_on_delivery", notes := "", delivery_speed := none,
    delivery_charge := 0,
    items := [{ product_id := some 7, product_name := "Jam", quantity := 2,
                price := 50, subtotal := 100 }] }

/-- Oracle failing the fifth query of the transaction (the cart deletion). -/
def c1failOracle : Oracle := fun i => if i = 4 then some .generic else none

def c1row : OrderRow :=
  mkOrderRow c1db c1data
    (generateOrderNumber (buildOrderNumberBase c1date)
      (c1db.orders.map (fun r => r.order_number)))

theorem claim_C1_witness :
    (Order.create c1failOracle c1date c1data c1db).1 = c1db ∧
    (Order.create noFail c1date c1data c1db).1 = appliedCreate c1db c1data c1row :=
  ⟨(claim_C1_create_transaction_atomicity c1failOracle c1date c1data c1db).1
      (.queryError 4) (by decide),
   (claim_C1_create_transaction_atomicity noFail c1date c1data c1db).2
      c1row (by decide)⟩

def c5date : JsDate := ⟨12, 10, 2025⟩

def c5db : DB :=
  { orders := [], order_items := [],
    products := [⟨7, 10⟩], cart := [], orderSeq := 1 }

/-- One item of quantity 2 at price 50.00 (subtotal 100.00) with
delivery_charge 10.00, but a caller-supplied total_amount of 55. -/
def c5data : OrderData :=
  { user_id := 1, total_amount := 55, shipping_address := "addr",
    payment_method := "cash_on_delivery", notes := "", delivery_speed := none,
    delivery_charge := 10,
    items := [{ product_id := some 7, product_name := "Jam", quantity := 2,
                price := 50, subtotal := 100 }] }

/-- C5 counterexample: the creation transaction does not enforce
`total_amount = sum of item subtotals + delivery_charge`.  `Order.create`
persists whatever `total_amount` the caller supplies: with one item of
subtotal 100 and delivery charge 10 (so the claimed invariant demands 110),
a supplied total of 55 is committed verbatim. -/
theorem claim_C5_counterexample :
    (Order.create noFail c5date c5data c5db).1.orders.map (fun r => r.total_amount) = [55] ∧
    (c5data.items.map (fun i => i.subtotal)).sum + c5data.delivery_charge = 110 ∧
    (55 : Int) ≠ 110 := by decide

/-- C5 (amended): `Order.create` copies `total_amount` and `delivery_charge`
verbatim from the caller's order data into the persisted row; no relation to
the item subtotals is computed or checked inside the transaction. -/
theorem claim_C5_amended_total_passthrough :
    ∀ (o : Oracle) (today : JsDate) (data : OrderData) (db : DB) (row : OrderRow),
      (Order.create o today data db).2 = .ok row →
      row.total_amount = data.total_amount ∧
      row.delivery_charge = data.delivery_charge := by
  intro o today data db row h
  obtain ⟨-, hrow, -⟩ := create_ok_characterization o today data db row h
  subst hrow
  exact ⟨rfl, rfl⟩

def c5row : OrderRow :=
  mkOrderRow c5db c5data
    (generateOrderNumber (buildOrderNumberBase c5date)
      (c5db.orders.map (fun r => r.order_number)))

theorem claim_C5_witness :
    c5row.total_amount = c5data.total_amount ∧
    c5row.delivery_charge = c5data.delivery_charge :=
  claim_C5_amended_total_passthrough noFail c5date c5data c5db c5row (by decide)

def c6date : JsDate := ⟨12, 10, 2025⟩

def c6db : DB :=
  { orders := [], order_items := [],
    products := [⟨3, 5⟩], cart := [⟨1, 8⟩, ⟨2, 9⟩], orderSeq := 1 }

/-- An order request with an empty items list. -/
def c6data : OrderData :=
  { user_id := 8, total_amount := 0, shipping_address := "addr",
    payment_method := "cash_on_delivery", notes := "", delivery_speed := none,
    delivery_charge := 0, items := [] }

/-- C6 counterexample: `Order.create` performs no non-empty validation of
`items`.  With an empty items list the transaction commits successfully (no
validation error), inserting an order row and clearing the user's cart — a
write does occur. -/
theorem claim_C6_counterexample :
    (Order.create noFail c6date c6data c6db).2.isOk = true ∧
    (Order.create noFail c6date c6data c6db).1.orders.length = 1 ∧
    (Order.create noFail c6date c6data c6db).1.cart = [⟨2, 9⟩] := by decide

/-- C6 (amended): `Order.create` does not validate the items list.  When the
transaction commits with `items = []`, exactly one order row is appended, the
user's cart rows are deleted, and `order_items` and `products` are left
unchanged. -/
theorem claim_C6_amended_empty_items_commits :
    ∀ (o : Oracle) (today : JsDate) (data : OrderData) (db : DB) (row : OrderRow),
      data.items = [] →
      (Order.create o today data db).2 = .ok row →
      (Order.create o today data db).1 =
        { db with orders := db.orders ++ [row],
                  cart := db.cart.filter (fun r => ¬ r.user_id = data.user_id),
                  orderSeq := db.orderSeq + 1 } := by
  intro o today data db row hempty h
  obtain ⟨hstate, -, -⟩ := create_ok_characterization o today data db row h
  rw [hstate]
  unfold appliedCreate
  rw [hempty]
  simp only [List.map_nil, List.append_nil, decContribution_nil, sub_zero]
  have hid : (fun p : ProductRow =>
      { p with stock_quantity := p.stock_quantity }) = fun p => p := by
    funext p; cases p; rfl
  rw [hid, List.map_id']

def c6row : OrderRow :=
  mkOrderRow c6db c6data
    (generateOrderNumber (buildOrderNumberBase c6date)
      (c6db.orders.map (fun r => r.order_number)))

theorem claim_C6_witness :
    (Order.create noFail c6date c6data c6db).1 =
      { c6db with orders := c6db.orders ++ [c6row],
                  cart := c6db.cart.filter (fun r => ¬ r.user_id = c6data.user_id),
                  orderSeq := c6db.orderSeq + 1 } :=
  claim_C6_amended_empty_items_commits noFail c6date c6data c6db c6row rfl (by decide)

/-! ### Characterization of `updateOrderStatus` -/

/-- Total stock restored to product `pid` by the cancellation loop: only
items with a JavaScript-truthy `product_id` and `quantity` contribute
(`if (!item.product_id || !item.quantity) continue`). -/
def restockContribution (pid : Nat) : List OrderItemRow → Int
  | [] => 0
  | item :: rest =>
    (if jsTruthyId item.product_id ∧ jsTruthyQty item.quantity ∧
        item.product_id = some pid
     then qtyVal item.quantity else 0) + restockContribution pid rest

theorem restockContribution_nil (pid : Nat) : restockContribution pid [] = 0 := rfl

theorem restockContribution_cons (pid : Nat) (item : OrderItemRow)
    (rest : List OrderItemRow) :
    restockContribution pid (item :: rest) =
      (if jsTruthyId item.product_id ∧ jsTruthyQty item.quantity ∧
          item.product_id = some pid
       then qtyVal item.quantity else 0) + restockContribution pid rest := rfl

theorem restoreStockLoop_nil (products : List ProductRow) :
    restoreStockLoop products [] = products := rfl

theorem restoreStockLoop_cons (products : List ProductRow) (item : OrderItemRow)
    (rest : List OrderItemRow) :
    restoreStockLoop products (item :: rest) =
      if jsTruthyId item.product_id && jsTruthyQty item.quantity then
        restoreStockLoop
          (products.map (fun p =>
            if item.product_id = some p.id then
              { p with stock_quantity := p.stock_quantity + qtyVal item.quantity }
            else p))
          rest
      else restoreStockLoop products rest := rfl

theorem restoreStockLoop_eq :
    ∀ (items : List OrderItemRow) (products : List ProductRow),
    restoreStockLoop products items =
      products.map (fun p =>
        { p with stock_quantity := p.stock_quantity + restockContribution p.id items }) := by
  intro items
  induction items with
  | nil =>
    intro products
    rw [restoreStockLoop_nil]
    have hid : (fun p : ProductRow =>
        { p with stock_quantity := p.stock_quantity + restockContribution p.id [] }) =
        fun p => p := by
      funext p; cases p; simp [restockContribution_nil]
    rw [hid, List.map_id']
  | cons item rest ih =>
    intro products
    rw [restoreStockLoop_cons]
    by_cases hact : (jsTruthyId item.product_id && jsTruthyQty item.quantity) = true
    · rw [if_pos hact, ih, List.map_map]
      obtain ⟨ht1, ht2⟩ := Bool.and_eq_true _ _ |>.mp hact
      apply List.map_congr_left
      intro p hp
      simp only [Function.comp]
      rw [restockContribution_cons]
      by_cases hm : item.product_id = some p.id
      · rw [if_pos hm, if_pos ⟨ht1, ht2, hm⟩]
        cases p with
        | mk pid pstock =>
          simp only [ProductRow.mk.injEq]
          exact ⟨trivial, by omega⟩
      · rw [if_neg hm, if_neg (fun hh => hm hh.2.2)]
        cases p with
        | mk pid pstock =>
          simp only [ProductRow.mk.injEq]
          exact ⟨trivial, by omega⟩
    · rw [if_neg hact, ih]
      apply List.map_congr_left
      intro p hp
      rw [restockContribution_cons]
      have hdead : ¬ (jsTruthyId item.product_id ∧ jsTruthyQty item.quantity ∧
          item.product_id = some p.id) := by
        intro hh
        exact hact (by rw [hh.1, hh.2.1]; rfl)
      rw [if_neg hdead]
      cases p with
      | mk pid pstock =>
        simp only [ProductRow.mk.injEq]
        exact ⟨trivial, by omega⟩

theorem restockContribution_eq_zero_of_dead :
    ∀ (items : List OrderItemRow),
    (∀ it ∈ items, jsTruthyId it.product_id = false ∨ jsTruthyQty it.quantity = false) →
    ∀ pid, restockContribution pid items = 0 := by
  intro items
  induction items with
  | nil => intro _ pid; rfl
  | cons item rest ih =>
    intro hdead pid
    rw [restockContribution_cons]
    have hitem := hdead item (List.mem_cons_self _ _)
    have hcond : ¬ (jsTruthyId item.product_id ∧ jsTruthyQty item.quantity ∧
        item.product_id = some pid) := by
      intro hh
      rcases hitem with h | h
      · rw [hh.1] at h; exact absurd h (by simp)
      · rw [hh.2.1] at h; exact absurd h (by simp)
    rw [if_neg hcond, ih (fun it hit => hdead it (List.mem_cons_of_mem _ hit)) pid]
    omega

theorem updateOrderStatus_invalid (db : DB) (id : Nat) (s : String)
    (hs : validStatuses.contains s = false) :
    updateOrderStatus db id s = (db, .invalidStatus) := by
  unfold updateOrderStatus
  rw [if_neg (by rw [hs]; simp)]

theorem updateOrderStatus_notFound (db : DB) (id : Nat) (s : String)
    (hs : validStatuses.contains s = true)
    (hfind : db.orders.find? (fun r => r.id == id) = none) :
    updateOrderStatus db id s = (db, .notFound) := by
  unfold updateOrderStatus
  rw [if_pos hs, hfind]

theorem updateOrderStatus_found (db : DB) (id : Nat) (s : String) (ord : OrderRow)
    (hs : validStatuses.contains s = true)
    (hfind : db.orders.find? (fun r => r.id == id) = some ord) :
    updateOrderStatus db id s =
      ({ db with
          orders := db.orders.map (fun r =>
            if r.id = id then { r with status := s } else r),
          products :=
            if ¬ ord.status = "cancelled" ∧ s = "cancelled" then
              restoreStockLoop db.products
                (db.order_items.filter (fun it => it.order_id == id))
            else db.products },
        .ok { ord with status := s }) := by
  unfold updateOrderStatus
  rw [if_pos hs, hfind]

theorem find?_status_map (orders : List OrderRow) (id : Nat) (s : String) :
    (orders.map (fun r => if r.id = id then { r with status := s } else r)).find?
        (fun r => r.id == id) =
      (orders.find? (fun r => r.id == id)).map
        (fun r => if r.id = id then { r with status := s } else r) := by
  induction orders with
  | nil => rfl
  | cons r rest ih =>
    cases hbeq : (r.id == id) with
    | true =>
      have hid : r.id = id := by simpa using hbeq
      simp [List.find?_cons, hid]
    | false =>
      have hid : ¬ r.id = id := by simpa using hbeq
      simp [List.find?_cons, hid, ih]

/-! ### Claims C2, C3, C10 -/

/-- C2: for an order whose current status is not `cancelled`,
`updateOrderStatus(id, 'cancelled')` increments each referenced product's
stock by the corresponding line-item quantities (`restockContribution` — the
sum of quantities of this order's truthy line items referencing the product);
it is the only transition with a side effect on products (every other enum
status leaves `products` unchanged); and re-cancelling the already-cancelled
order leaves every product's stock unchanged (idempotent). -/
theorem claim_C2_cancel_restock_once :
    ∀ (db : DB) (id : Nat) (ord : OrderRow),
      db.orders.find? (fun r => r.id == id) = some ord →
      ord.status ≠ "cancelled" →
      ((updateOrderStatus db id "cancelled").1.products =
          db.products.map (fun p =>
            { p with stock_quantity := (p.stock_quantity +
                restockContribution p.id
                  (db.order_items.filter (fun it => it.order_id == id))) }) ∧
       (updateOrderStatus db id "cancelled").2 = .ok { ord with status := "cancelled" } ∧
       (∀ s, validStatuses.contains s = true → s ≠ "cancelled" →
          (updateOrderStatus db id s).1.products = db.products) ∧
       (updateOrderStatus (updateOrderStatus db id "cancelled").1 id "cancelled").1.products =
          (updateOrderStatus db id "cancelled").1.products) := by
  intro db id ord hfind hnc
  have hvc : validStatuses.contains "cancelled" = true := by decide
  have key := updateOrderStatus_found db id "cancelled" ord hvc hfind
  rw [if_pos ⟨hnc, rfl⟩] at key
  refine ⟨?_, ?_, ?_, ?_⟩
  · rw [key]
    exact restoreStockLoop_eq _ _
  · rw [key]
  · intro s hs hsnc
    have key2 := updateOrderStatus_found db id s ord hs hfind
    rw [if_neg (fun hh => hsnc hh.2)] at key2
    rw [key2]
  · rw [key]
    dsimp only
    have hfind2 : (db.orders.map (fun r =>
        if r.id = id then { r with status := "cancelled" } else r)).find?
          (fun r => r.id == id) = some { ord with status := "cancelled" } := by
      rw [find?_status_map, hfind]
      have hid : ord.id = id := by simpa using List.find?_some hfind
      simp [hid]
    have key3 := updateOrderStatus_found
      { db with
          orders := db.orders.map (fun r =>
            if r.id = id then { r with status := "cancelled" } else r),
          products := restoreStockLoop db.products
            (db.order_items.filter (fun it => it.order_id == id)) }
      id "cancelled" { ord with status := "cancelled" } hvc hfind2
    rw [if_neg (fun hh => hh.1 rfl)] at key3
    rw [key3]

def c2db : DB :=
  { orders := [{ id := 1, user_id := 4, order_number := [], total_amount := 100,
                 shipping_address := "a", payment_method := "cod", notes := "",
                 status := "shipped", delivery_speed := none, delivery_charge := 0 }],
    order_items :=
      [{ order_id := 1, product_id := some 7, product_name := "Jam",
         quantity := some 2, price := 50, subtotal := 100 }],
    products := [⟨7, 3⟩], cart := [], orderSeq := 2 }

theorem claim_C2_witness :
    (updateOrderStatus c2db 1 "cancelled").1.products =
      c2db.products.map (fun p =>
        { p with stock_quantity := (p.stock_quantity +
            restockContribution p.id
              (c2db.order_items.filter (fun it => it.order_id == 1))) }) ∧
    (updateOrderStatus (updateOrderStatus c2db 1 "cancelled").1 1 "cancelled").1.products =
      (updateOrderStatus c2db 1 "cancelled").1.products :=
  ⟨(claim_C2_cancel_restock_once c2db 1
      { id := 1, user_id := 4, order_number := [], total_amount := 100,
        shipping_address := "a", payment_method := "cod", notes := "",
        status := "shipped", delivery_speed := none, delivery_charge := 0 }
      (by decide) (by decide)).1,
   (claim_C2_cancel_restock_once c2db 1
      { id := 1, user_id := 4, order_number := [], total_amount := 100,
        shipping_address := "a", payment_method := "cod", notes := "",
        status := "shipped", delivery_speed := none, delivery_charge := 0 }
      (by decide) (by decide)).2.2.2⟩

def c3db : DB :=
  { orders := [{ id := 1, user_id := 4, order_number := [], total_amount := 100,
                 shipping_address := "a", payment_method := "cod", notes := "",
                 status := "delivered", delivery_speed := none, delivery_charge := 0 }],
    order_items := [], products := [], cart := [], orderSeq := 2 }

/-- C3 counterexample: the controller does not enforce the claimed state
machine.  An order currently in status `delivered` is moved to `pending` by
`updateOrderStatus(1, 'pending')` — the call succeeds and the stored status
becomes `pending`, so there are transitions out of `delivered` (and likewise
out of `cancelled`). -/
theorem claim_C3_counterexample :
    (updateOrderStatus c3db 1 "pending").1.orders.map (fun r => r.status) = ["pending"] ∧
    (updateOrderStatus c3db 1 "pending").2 ≠ .invalidStatus ∧
    (updateOrderStatus c3db 1 "pending").2 ≠ .notFound := by decide

/-- C3 (amended): `updateOrderStatus` only checks membership of the new
status in the five-value enum; any enum status is accepted from any current
status (including out of `delivered` and `cancelled`), and a non-enum status
is rejected with a validation error before any write. -/
theorem claim_C3_amended_enum_only_guard :
    ∀ (db : DB) (id : Nat) (s : String) (ord : OrderRow),
      db.orders.find? (fun r => r.id == id) = some ord →
      validStatuses.contains s = true →
      ((updateOrderStatus db id s).2 = .ok { ord with status := s } ∧
       (∀ s2, validStatuses.contains s2 = false →
          updateOrderStatus db id s2 = (db, .invalidStatus))) := by
  intro db id s ord hfind hs
  refine ⟨?_, fun s2 hs2 => updateOrderStatus_invalid db id s2 hs2⟩
  rw [updateOrderStatus_found db id s ord hs hfind]

theorem claim_C3_witness :
    (updateOrderStatus c3db 1 "pending").2 =
      .ok { id := 1, user_id := 4, order_number := [], total_amount := 100,
            shipping_address := "a", payment_method := "cod", notes := "",
            status := "pending", delivery_speed := none, delivery_charge := 0 } ∧
    updateOrderStatus c3db 1 "archived" = (c3db, .invalidStatus) :=
  ⟨(claim_C3_amended_enum_only_guard c3db 1 "pending"
      { id := 1, user_id := 4, order_number := [], total_amount := 100,
        shipping_address := "a", payment_method := "cod", notes := "",
        status := "delivered", delivery_speed := none, delivery_charge := 0 }
      (by decide) (by decide)).1,
   (claim_C3_amended_enum_only_guard c3db 1 "pending"
      { id := 1, user_id := 4, order_number := [], total_amount := 100,
        shipping_address := "a", payment_method := "cod", notes := "",
        status := "delivered", delivery_speed := none, delivery_charge := 0 }
      (by decide) (by decide)).2 "archived" (by decide)⟩

/-- C10: when `updateOrderStatus` newly cancels an order, the stock-restore
loop silently skips every line item whose `product_id` or `quantity` is
JavaScript-falsy (`null` or `0`): the cancellation still commits (`ok` with
the updated row), stock is incremented only per `restockContribution` (which
by definition counts only items with a truthy product reference and truthy
quantity), and when every item of the order is skipped the products table is
completely unchanged — no error is raised. -/
theorem claim_C10_cancel_skips_dead_items :
    ∀ (db : DB) (id : Nat) (ord : OrderRow),
      db.orders.find? (fun r => r.id == id) = some ord →
      ord.status ≠ "cancelled" →
      ((updateOrderStatus db id "cancelled").2 = .ok { ord with status := "cancelled" } ∧
       (updateOrderStatus db id "cancelled").1.products =
         db.products.map (fun p =>
           { p with stock_quantity := (p.stock_quantity +
               restockContribution p.id
                 (db.order_items.filter (fun it => it.order_id == id))) }) ∧
       ((∀ it ∈ db.order_items.filter (fun it => it.order_id == id),
           jsTruthyId it.product_id = false ∨ jsTruthyQty it.quantity = false) →
         (updateOrderStatus db id "cancelled").1.products = db.products)) := by
  intro db id ord hfind hnc
  have hvc : validStatuses.contains "cancelled" = true := by decide
  have key := updateOrderStatus_found db id "cancelled" ord hvc hfind
  rw [if_pos ⟨hnc, rfl⟩] at key
  refine ⟨by rw [key], by rw [key]; exact restoreStockLoop_eq _ _, ?_⟩
  intro hdead
  rw [key]
  dsimp only
  rw [restoreStockLoop_eq]
  have hzero := restockContribution_eq_zero_of_dead _ hdead
  have hid : (fun p : ProductRow =>
      { p with stock_quantity := (p.stock_quantity +
          restockContribution p.id
            (db.order_items.filter (fun it => it.order_id == id))) }) =
      fun p => p := by
    funext p
    cases p with
    | mk pid pstock =>
      simp only [ProductRow.mk.injEq]
      rw [hzero pid]
      exact ⟨trivial, by omega⟩
  rw [hid, List.map_id']

def c10db : DB :=
  { orders := [{ id := 1, user_id := 4, order_number := [], total_amount := 100,
                 shipping_address := "a", payment_method := "cod", notes := "",
                 status := "processing", delivery_speed := none, delivery_charge := 0 }],
    order_items :=
      [{ order_id := 1, product_id := none, product_name := "Deleted",
         quantity := some 2, price := 50, subtotal := 100 },
       { order_id := 1, product_id := some 3, product_name := "ZeroQty",
         quantity := some 0, price := 10, subtotal := 0 },
       { order_id := 1, product_id := some 3, product_name := "NullQty",
         quantity := none, price := 10, subtotal := 0 }],
    products := [⟨3, 5⟩], cart := [], orderSeq := 2 }

theorem claim_C10_witness :
    (updateOrderStatus c10db 1 "cancelled").2 =
      .ok { id := 1, user_id := 4, order_number := [], total_amount := 100,
            shipping_address := "a", payment_method := "cod", notes := "",
            status := "cancelled", delivery_speed := none, delivery_charge := 0 } ∧
    (updateOrderStatus c10db 1 "cancelled").1.products = c10db.products :=
  ⟨(claim_C10_cancel_skips_dead_items c10db 1
      { id := 1, user_id := 4, order_number := [], total_amount := 100,
        shipping_address := "a", payment_method := "cod", notes := "",
        status := "processing", delivery_speed := none, delivery_charge := 0 }
      (by decide) (by decide)).1,
   (claim_C10_cancel_skips_dead_items c10db 1
      { id := 1, user_id := 4, order_number := [], total_amount := 100,
        shipping_address := "a", payment_method := "cod", notes := "",
        status := "processing", delivery_speed := none, delivery_charge := 0 }
      (by decide) (by decide)).2.2 (by decide)⟩

/-! ### Restore verification and recovery (src/controllers/restoreController.js, lines 501-576)

The post-replay verification of `restoreDatabase`: expected counts come from
the uploaded snapshot (`countTableRowsInSql`, `null` when the table's COPY
block is absent), payload flags from `inspectTableDataInSql`, live counts
from `SELECT COUNT(*)`.  The automatic recovery pass is guarded by
`missingCriticalOrderData && !restoreMethod.startsWith('pg-fallback-recovery')`;
when it runs, it resets the schema, replays with the in-process client
(`restoreWithPgClient`), re-runs the repair, re-counts, and relabels
`restoreMethod` as `pg-fallback-recovery(<previous>)`. -/

structure RestoreVerifyCtx where
  expectedUsersFromBackup : Option Nat
  expectedOrdersFromBackup : Option Nat
  expectedOrderItemsFromBackup : Option Nat
  ordersHasData : Bool
  orderItemsHasData : Bool
  usersCount : Nat
  ordersCount : Nat
  orderItemsCount : Nat
  restoreMethod : List Char
deriving DecidableEq, Repr

/-- `typeof expectedUsersFromBackup === 'number' && usersCount < expected`. -/
def hasUsersMismatch (c : RestoreVerifyCtx) : Bool :=
  match c.expectedUsersFromBackup with
  | some n => decide (c.usersCount < n)
  | none => false

def hasOrdersMismatch (c : RestoreVerifyCtx) : Bool :=
  match c.expectedOrdersFromBackup with
  | some n => decide (c.ordersCount < n)
  | none => false

def hasOrderItemsMismatch (c : RestoreVerifyCtx) : Bool :=
  match c.expectedOrderItemsFromBackup with
  | some n => decide (c.orderItemsCount < n)
  | none => false

def missingCriticalOrderData (c : RestoreVerifyCtx) : Bool :=
  (c.ordersHasData && decide (c.ordersCount = 0)) ||
    (c.orderItemsHasData && decide (c.orderItemsCount = 0))

def recoveryLabel : List Char := "pg-fallback-recovery".toList

/-- The recovery guard:
`missingCriticalOrderData && !restoreMethod.startsWith('pg-fallback-recovery')`. -/
def runsRecoveryPass (c : RestoreVerifyCtx) : Bool :=
  missingCriticalOrderData c && !(recoveryLabel.isPrefixOf c.restoreMethod)

/-- `restoreMethod = \`pg-fallback-recovery(${restoreMethod})\``. -/
def recoveryMethodLabel (m : List Char) : List Char :=
  "pg-fallback-recovery(".toList ++ m ++ ")".toList

/-- The verification tail of `restoreDatabase`: at most one recovery pass
(schema reset + in-process replay + repair + re-count, here summarized by the
re-counted values `recount`), then the warnings.  -/
def restoreVerification (c : RestoreVerifyCtx) (recount : Nat × Nat × Nat) :
    RestoreVerifyCtx :=
  if runsRecoveryPass c then
    { c with
        restoreMethod := recoveryMethodLabel c.restoreMethod,
        usersCount := recount.1,
        ordersCount := recount.2.1,
        orderItemsCount := recount.2.2 }
  else c

inductive RestoreWarning where
  | usersShort : RestoreWarning
  | ordersShort : RestoreWarning
  | orderItemsShort : RestoreWarning
  | ordersPayloadZero : RestoreWarning
  | orderItemsPayloadZero : RestoreWarning
deriving DecidableEq, Repr

/-- The `warnings` array pushed after (possible) recovery.  Note the mismatch
flags are computed from the pre-recovery counts, as in the code. -/
def restoreWarnings (c : RestoreVerifyCtx) (post : RestoreVerifyCtx) :
    List RestoreWarning :=
  (if hasUsersMismatch c then [.usersShort] else []) ++
  (if hasOrdersMismatch c then [.ordersShort] else []) ++
  (if hasOrderItemsMismatch c then [.orderItemsShort] else []) ++
  (if c.ordersHasData && decide (post.ordersCount = 0) then [.ordersPayloadZero] else []) ++
  (if c.orderItemsHasData && decide (post.orderItemsCount = 0) then [.orderItemsPayloadZero] else [])

theorem isPrefixOf_append_self (l r : List Char) : l.isPrefixOf (l ++ r) = true := by
  rw [List.isPrefixOf_iff_prefix]
  exact List.prefix_append l r

/-- A shortfall context: the snapshot's orders marker says 2 rows and carries
orders payload, but only 1 live order row was restored. -/
def c7ctx : RestoreVerifyCtx :=
  { expectedUsersFromBackup := some 3
    expectedOrdersFromBackup := some 2
    expectedOrderItemsFromBackup := some 2
    ordersHasData := true
    orderItemsHasData := true
    usersCount := 3
    ordersCount := 1
    orderItemsCount := 1
    restoreMethod := "psql".toList }

/-- C7 counterexample: a live `orders` count short of the snapshot's
row-count marker (1 restored vs 2 expected, with orders payload present in
the snapshot) does NOT trigger the automatic recovery pass — the guard
requires the live count to be exactly zero.  The shortfall only produces
warnings; `restoreVerification` leaves the context untouched. -/
theorem claim_C7_counterexample :
    hasOrdersMismatch c7ctx = true ∧
    c7ctx.ordersHasData = true ∧
    runsRecoveryPass c7ctx = false ∧
    restoreVerification c7ctx (3, 2, 2) = c7ctx ∧
    restoreWarnings c7ctx (restoreVerification c7ctx (3, 2, 2)) =
      [.ordersShort, .orderItemsShort] := by decide

/-- C7 (amended): the automatic recovery pass is triggered not by any
shortfall but exactly when the snapshot contains orders (or order_items)
payload and the corresponding live count is zero, provided no recovery pass
has already run; the pass relabels `restoreMethod` to
`pg-fallback-recovery(<previous>)`, so the guard can never fire a second
time (exactly one pass); every initial restore method fails the
recovery-label test, so a due pass does run; and a nonzero shortfall only
contributes warnings. -/
theorem claim_C7_amended_recovery_guard :
    ∀ (c : RestoreVerifyCtx) (recount : Nat × Nat × Nat),
      (runsRecoveryPass c = true ↔
        (((c.ordersHasData = true ∧ c.ordersCount = 0) ∨
          (c.orderItemsHasData = true ∧ c.orderItemsCount = 0)) ∧
         recoveryLabel.isPrefixOf c.restoreMethod = false)) ∧
      (runsRecoveryPass c = true →
        runsRecoveryPass (restoreVerification c recount) = false) ∧
      (∀ m, m ∈ ["psql", "psql-tolerant", "pg-fallback(no-psql)",
                 "pg-fallback(psql-failed)"] →
        recoveryLabel.isPrefixOf (String.toList m) = false) ∧
      (c.ordersCount ≠ 0 → c.orderItemsCount ≠ 0 → runsRecoveryPass c = false) := by
  intro c recount
  refine ⟨?_, ?_, ?_, ?_⟩
  · unfold runsRecoveryPass missingCriticalOrderData
    constructor
    · intro h
      obtain ⟨h1, h2⟩ := Bool.and_eq_true _ _ |>.mp h
      refine ⟨?_, ?_⟩
      · rcases Bool.or_eq_true _ _ |>.mp h1 with h3 | h3
        · obtain ⟨h4, h5⟩ := Bool.and_eq_true _ _ |>.mp h3
          exact Or.inl ⟨h4, by simpa using h5⟩
        · obtain ⟨h4, h5⟩ := Bool.and_eq_true _ _ |>.mp h3
          exact Or.inr ⟨h4, by simpa using h5⟩
      · simpa using h2
    · intro ⟨h1, h2⟩
      apply Bool.and_eq_true _ _ |>.mpr
      refine ⟨?_, by simpa using h2⟩
      apply Bool.or_eq_true _ _ |>.mpr
      rcases h1 with ⟨h3, h4⟩ | ⟨h3, h4⟩
      · exact Or.inl (Bool.and_eq_true _ _ |>.mpr ⟨h3, by simpa using h4⟩)
      · exact Or.inr (Bool.and_eq_true _ _ |>.mpr ⟨h3, by simpa using h4⟩)
  · intro h
    unfold restoreVerification
    rw [if_pos h]
    unfold runsRecoveryPass
    have hsplit : recoveryMethodLabel c.restoreMethod =
        recoveryLabel ++ ("(".toList ++ c.restoreMethod ++ ")".toList) := by
      unfold recoveryMethodLabel recoveryLabel
      rw [show ("pg-fallback-recovery(".toList : List Char) =
        "pg-fallback-recovery".toList ++ "(".toList from by decide]
      simp [List.append_assoc]
    have hpre : recoveryLabel.isPrefixOf (recoveryMethodLabel c.restoreMethod) = true := by
      rw [hsplit]
      exact isPrefixOf_append_self _ _
    simp [hpre]
  · intro m hm
    fin_cases hm <;> decide
  · intro h1 h2
    unfold runsRecoveryPass missingCriticalOrderData
    simp [h1, h2]

theorem claim_C7_witness :
    runsRecoveryPass { c7ctx with ordersCount := 0 } = true ∧
    runsRecoveryPass
      (restoreVerification { c7ctx with ordersCount := 0 } (3, 2, 2)) = false :=
  ⟨by decide,
   (claim_C7_amended_recovery_guard { c7ctx with ordersCount := 0 } (3, 2, 2)).2.1
     (by decide)⟩

/-! ### `createBackupInternal` (src/controllers/backupController.js, lines 398-564)

The body after directory resolution runs inside one `try`/`catch`: pg_dump,
the three critical-table SELECTs, the appended upsert blocks, the file stat,
the three row-count verifications, and the `Backup.create` of the completed
record.  The catch persists a `failed` record carrying the captured error's
message (the HTTP-facing error is rewritten from it, but the record stores
the original).  `BackupEnv` supplies the outcome of each external step; each
`Option String` field is `some msg` when that step throws with message
`msg`. -/

inductive BackupErrMsg where
  | external (s : String) : BackupErrMsg
  | verifyUsers (total inDump : Nat) : BackupErrMsg
  | verifyOrders (total : Nat) (inDump : Int) : BackupErrMsg
  | verifyOrderItems (total : Nat) (inDump : Int) : BackupErrMsg
deriving DecidableEq, Repr

structure BackupRecord where
  filename : String
  drive : String
  file_size : Nat
  created_by : Option Nat
  status : String
  error_message : Option BackupErrMsg
deriving DecidableEq, Repr

structure BackupEnv where
  filename : String
  driveLabel : String
  createdBy : Option Nat
  usersTotal : Nat
  dumpError : Option String
  selectError : Option String
  appendError : Option String
  statError : Option String
  usersRows : Nat
  ordersRows : Nat
  orderItemsRows : Nat
  fileSizeBytes : Nat
  ordersRowsInDump : Option Int
  orderItemsRowsInDump : Option Int
  completedInsertError : Option String
  failedInsertFails : Bool
deriving DecidableEq, Repr

/-- The first error thrown inside the `try` block before the completed-record
insert: pg_dump, the SELECTs, the appends, the stat, then the three
verifications in source order. -/
def backupTryError (env : BackupEnv) : Option BackupErrMsg :=
  match env.dumpError with
  | some s => some (.external s)
  | none =>
    match env.selectError with
    | some s => some (.external s)
    | none =>
      match env.appendError with
      | some s => some (.external s)
      | none =>
        match env.statError with
        | some s => some (.external s)
        | none =>
          -- if (usersRowsInDump < usersTotal) throw
          if env.usersRows < env.usersTotal then
            some (.verifyUsers env.usersTotal env.usersRows)
          else
            -- if (typeof ordersRowsInDump === 'number' && ordersRowsInDump < ordersTotal)
            match env.ordersRowsInDump with
            | some n =>
              if n < (env.ordersRows : Int) then some (.verifyOrders env.ordersRows n)
              else
                match env.orderItemsRowsInDump with
                | some m =>
                  if m < (env.orderItemsRows : Int) then
                    some (.verifyOrderItems env.orderItemsRows m)
                  else none
                | none => none
            | none =>
              match env.orderItemsRowsInDump with
              | some m =>
                if m < (env.orderItemsRows : Int) then
                  some (.verifyOrderItems env.orderItemsRows m)
                else none
              | none => none

def completedRecordOf (env : BackupEnv) : BackupRecord :=
  { filename := env.filename
    drive := env.driveLabel
    file_size := env.fileSizeBytes
    created_by := env.createdBy
    status := "completed"
    error_message := none }

def failedRecordOf (env : BackupEnv) (msg : BackupErrMsg) : BackupRecord :=
  { filename := env.filename
    drive := env.driveLabel
    file_size := 0
    created_by := env.createdBy
    status := "failed"
    error_message := some msg }

/-- `createBackupInternal` as a function of the step outcomes and the
`backups` table.  The returned error carries the captured message (the
HTTP-facing text is derived from it by the catch block).  When the failed
audit insert itself throws (`failedInsertFails`), that exception propagates
and no record is written. -/
def createBackupInternal (env : BackupEnv) (backups : List BackupRecord) :
    List BackupRecord × Except BackupErrMsg BackupRecord :=
  match backupTryError env with
  | none =>
    -- const backupRecord = await Backup.create({ ... status: 'completed' })
    match env.completedInsertError with
    | none =>
      (backups ++ [completedRecordOf env], .ok (completedRecordOf env))
    | some s =>
      -- the completed insert threw inside the try: the catch persists a
      -- failed record with the captured message
      if env.failedInsertFails then (backups, .error (.external s))
      else (backups ++ [failedRecordOf env (.external s)], .error (.external s))
  | some msg =>
    if env.failedInsertFails then (backups, .error msg)
    else (backups ++ [failedRecordOf env msg], .error msg)

/-- C8: as long as the failed-record insert itself does not throw, every
invocation of `createBackupInternal` appends exactly one `BackupRecord`: a
`completed` one (with the file metrics, returned as the success value) when
the dump, the appends and the row-count verification all succeed, and a
`failed` one carrying the captured error message when any of those steps
throws — every backup attempt leaves an audit row. -/
theorem claim_C8_backup_audit_record :
    ∀ (env : BackupEnv) (backups : List BackupRecord),
      env.failedInsertFails = false →
      ((createBackupInternal env backups).1.length = backups.length + 1 ∧
       (∀ rec2, (createBackupInternal env backups).2 = .ok rec2 →
          (createBackupInternal env backups).1 = backups ++ [rec2] ∧
          rec2.status = "completed" ∧ rec2.error_message = none ∧
          rec2.file_size = env.fileSizeBytes) ∧
       (∀ msg, (createBackupInternal env backups).2 = .error msg →
          (createBackupInternal env backups).1 =
            backups ++ [failedRecordOf env msg] ∧
          (failedRecordOf env msg).status = "failed" ∧
          (failedRecordOf env msg).error_message = some msg)) := by
  intro env backups hff
  unfold createBackupInternal
  cases htry : backupTryError env with
  | none =>
    cases hci : env.completedInsertError with
    | none =>
      dsimp only
      refine ⟨by simp, ?_, ?_⟩
      · intro rec2 h2
        injection h2 with h2
        subst h2
        exact ⟨rfl, rfl, rfl, rfl⟩
      · intro msg h2
        exact absurd h2 (by simp)
    | some s =>
      dsimp only
      rw [if_neg (by rw [hff]; simp)]
      refine ⟨by simp, ?_, ?_⟩
      · intro rec2 h2
        exact absurd h2 (by simp)
      · intro msg h2
        injection h2 with h2
        subst h2
        exact ⟨rfl, rfl, rfl⟩
  | some msg0 =>
    dsimp only
    rw [if_neg (by rw [hff]; simp)]
    refine ⟨by simp, ?_, ?_⟩
    · intro rec2 h2
      exact absurd h2 (by simp)
    · intro msg h2
      injection h2 with h2
      subst h2
      exact ⟨rfl, rfl, rfl⟩

def c8envOk : BackupEnv :=
  { filename := "mountain_made_backup_t.sql", driveLabel := "/",
    createdBy := some 1, usersTotal := 3, dumpError := none,
    selectError := none, appendError := none, statError := none,
    usersRows := 3, ordersRows := 2, orderItemsRows := 2,
    fileSizeBytes := 4096, ordersRowsInDump := some 2,
    orderItemsRowsInDump := some 2, completedInsertError := none,
    failedInsertFails := false }

def c8envFail : BackupEnv :=
  { c8envOk with dumpError := some "pg_dump failed" }

theorem claim_C8_witness :
    (createBackupInternal c8envOk []).1 = [completedRecordOf c8envOk] ∧
    (createBackupInternal c8envFail []).1 =
      [failedRecordOf c8envFail (.external "pg_dump failed")] ∧
    (failedRecordOf c8envFail (.external "pg_dump failed")).error_message =
      some (.external "pg_dump failed") :=
  ⟨((claim_C8_backup_audit_record c8envOk [] (by decide)).2.1
      (completedRecordOf c8envOk) (by decide)).1,
   ((claim_C8_backup_audit_record c8envFail [] (by decide)).2.2
      (.external "pg_dump failed") (by decide)).1,
   ((claim_C8_backup_audit_record c8envFail [] (by decide)).2.2
      (.external "pg_dump failed") (by decide)).2.2⟩

/-! ### Claim C4: order-number uniqueness and suffix allocation

`canonicalNumbers base n` is the sequence `[base, base-2, ..., base-n]` that
the allocation is claimed to produce for the first `n` orders of a date.
`CreateTrace` models the committed order numbers of one date under arbitrary
interleaving of `Order.create` calls: each successful insert allocated its
number by running `generateOrderNumber` against some previously committed
state `T` (read-committed snapshot) contained in the current state `S`, and
the insert succeeded because the unique constraint found the number absent
from `S`.  Failed inserts (unique-constraint violations followed by a retry)
do not change the committed state, so they need no trace step. -/

theorem isDigit_not_white {c : Char} (h : c.isDigit = true) : isWhiteChar c = false := by
  have hb : ('0' ≤ c ∧ c ≤ '9') := by
    simpa [Char.isDigit, Bool.and_eq_true, decide_eq_true_iff] using h
  unfold isWhiteChar
  have h1 : c ≠ ' ' := fun he => by subst he; exact absurd hb.1 (by decide)
  have h2 : c ≠ '\t' := fun he => by subst he; exact absurd hb.1 (by decide)
  have h3 : c ≠ '\n' := fun he => by subst he; exact absurd hb.1 (by decide)
  have h4 : c ≠ '\r' := fun he => by subst he; exact absurd hb.1 (by decide)
  simp [h1, h2, h3, h4]

theorem isDigit_ne_dash {c : Char} (h : c.isDigit = true) : c ≠ '-' := by
  intro he
  have hb : ('0' ≤ c ∧ c ≤ '9') := by
    simpa [Char.isDigit, Bool.and_eq_true, decide_eq_true_iff] using h
  subst he
  exact absurd hb.1 (by decide)

/-- Structural facts about a base string that the allocation proofs use:
the bases produced by `buildOrderNumberBase` are nonempty, contain no dash
and no whitespace. -/
structure CleanBase (base : List Char) : Prop where
  nonempty : base ≠ []
  nodash : '-' ∉ base
  nowhite : ∀ c ∈ base, isWhiteChar c = false

theorem mem_padStart2 {c : Char} {l : List Char} (h : c ∈ padStart2 l) :
    c = '0' ∨ c ∈ l := by
  unfold padStart2 at h
  rw [List.mem_append] at h
  rcases h with h | h
  · exact Or.inl (List.eq_of_mem_replicate h)
  · exact Or.inr h

theorem buildOrderNumberBase_clean (d : JsDate) :
    CleanBase (buildOrderNumberBase d) := by
  have hM1 : ('M' : Char) ≠ '-' := by decide
  have hMw : isWhiteChar 'M' = false := by decide
  have hdigit : ∀ c : Char, c ∈ padStart2 (natChars d.day) ∨
      c ∈ padStart2 (natChars d.month) ∨ c ∈ natChars d.year →
      c.isDigit = true := by
    intro c hc
    rcases hc with hc | hc | hc
    · rcases mem_padStart2 hc with h | h
      · rw [h]; decide
      · exact natChars_all_digit _ c h
    · rcases mem_padStart2 hc with h | h
      · rw [h]; decide
      · exact natChars_all_digit _ c h
    · exact natChars_all_digit _ c hc
  refine ⟨by simp [buildOrderNumberBase], ?_, ?_⟩
  · intro hmem
    unfold buildOrderNumberBase at hmem
    simp only [List.mem_cons, List.mem_append] at hmem
    rcases hmem with h | h | h
    · exact absurd h.symm hM1
    · exact absurd h.symm hM1
    · exact absurd rfl (isDigit_ne_dash (hdigit '-' (by tauto)))
  · intro c hc
    unfold buildOrderNumberBase at hc
    simp only [List.mem_cons, List.mem_append] at hc
    rcases hc with h | h | h
    · rw [h]; decide
    · rw [h]; decide
    · exact isDigit_not_white (hdigit c (by tauto))

theorem withSuffix_no_white {base : List Char} (hb : CleanBase base) (k : Nat) :
    ∀ c ∈ withSuffix base k, isWhiteChar c = false := by
  intro c hc
  unfold withSuffix at hc
  rw [List.mem_append] at hc
  rcases hc with h | h
  · exact hb.nowhite c h
  · rw [List.mem_cons] at h
    rcases h with h | h
    · rw [h]; decide
    · exact isDigit_not_white (natChars_all_digit _ c h)

theorem withSuffix_eq_append (base : List Char) (k : Nat) :
    withSuffix base k = (base ++ ['-']) ++ natChars k := by
  unfold withSuffix
  simp

theorem withSuffix_ne_base (base : List Char) (k : Nat) :
    withSuffix base k ≠ base := by
  intro h
  have := congrArg List.length h
  rw [withSuffix_eq_append, List.length_append, List.length_append] at this
  have hk := natChars_ne_nil k
  have : (natChars k).length ≠ 0 := by
    intro h0
    exact hk (List.length_eq_zero.mp h0)
  omega

theorem withSuffix_injective {base : List Char} {j k : Nat}
    (h : withSuffix base j = withSuffix base k) : j = k := by
  rw [withSuffix_eq_append, withSuffix_eq_append] at h
  have := List.append_inj h rfl
  exact natChars_injective this.2

theorem matchBaseSuffix_base (base : List Char) :
    matchBaseSuffix base base = none := by
  unfold matchBaseSuffix
  rw [if_neg]
  intro h
  have := (List.isPrefixOf_iff_prefix.mp h).length_le
  simp at this

theorem matchBaseSuffix_withSuffix (base : List Char) (k : Nat) :
    matchBaseSuffix base (withSuffix base k) = some k := by
  unfold matchBaseSuffix
  rw [if_pos (by rw [withSuffix_eq_append]; exact isPrefixOf_append_self _ _)]
  have hdrop : (withSuffix base k).drop (base.length + 1) = natChars k := by
    rw [withSuffix_eq_append]
    rw [show base.length + 1 = (base ++ ['-']).length by simp]
    exact List.drop_left _ _
  simp only [hdrop]
  rw [if_neg (natChars_ne_nil k)]
  rw [if_pos (by rw [List.all_eq_true]; exact natChars_all_digit k)]
  rw [charsToNat_natChars]

def canonicalNumbers (base : List Char) : Nat → List (List Char)
  | 0 => []
  | 1 => [base]
  | Nat.succ (Nat.succ m) =>
    canonicalNumbers base (m + 1) ++ [withSuffix base (m + 2)]

theorem canonicalNumbers_succ (base : List Char) {n : Nat} (h : 1 ≤ n) :
    canonicalNumbers base (n + 1) =
      canonicalNumbers base n ++ [withSuffix base (n + 1)] := by
  match n, h with
  | m + 1, _ => rfl

theorem canonicalNumbers_length (base : List Char) :
    ∀ n, (canonicalNumbers base n).length = n := by
  intro n
  induction n with
  | zero => rfl
  | succ n ih =>
    cases n with
    | zero => rfl
    | succ m =>
      rw [canonicalNumbers_succ base (by omega)]
      simp [ih]

theorem base_mem_canonical (base : List Char) :
    ∀ {n : Nat}, 1 ≤ n → base ∈ canonicalNumbers base n := by
  intro n
  induction n with
  | zero => intro h; omega
  | succ n ih =>
    intro _
    cases n with
    | zero => simp [canonicalNumbers]
    | succ m =>
      rw [canonicalNumbers_succ base (by omega), List.mem_append]
      exact Or.inl (ih (by omega))

theorem withSuffix_mem_canonical (base : List Char) :
    ∀ {n k : Nat}, 2 ≤ k → k ≤ n → withSuffix base k ∈ canonicalNumbers base n := by
  intro n
  induction n with
  | zero => intro k h2 hk; omega
  | succ n ih =>
    intro k h2 hk
    cases n with
    | zero => omega
    | succ m =>
      rw [canonicalNumbers_succ base (by omega), List.mem_append]
      by_cases he : k = m + 2
      · subst he; exact Or.inr (by simp)
      · exact Or.inl (ih h2 (by omega))

theorem mem_canonical_cases (base : List Char) :
    ∀ {n : Nat} {x : List Char}, x ∈ canonicalNumbers base n →
      (1 ≤ n ∧ x = base) ∨ ∃ k, 2 ≤ k ∧ k ≤ n ∧ x = withSuffix base k := by
  intro n
  induction n with
  | zero => intro x h; simp [canonicalNumbers] at h
  | succ n ih =>
    intro x h
    cases n with
    | zero =>
      simp [canonicalNumbers] at h
      exact Or.inl ⟨by omega, h⟩
    | succ m =>
      rw [canonicalNumbers_succ base (by omega), List.mem_append] at h
      rcases h with h | h
      · rcases ih h with ⟨h1, h2⟩ | ⟨k, h2, h3, h4⟩
        · exact Or.inl ⟨by omega, h2⟩
        · exact Or.inr ⟨k, h2, by omega, h4⟩
      · simp at h
        exact Or.inr ⟨m + 2, by omega, by omega, h⟩

theorem trimChars_base {base : List Char} (hb : CleanBase base) :
    trimChars base = base :=
  trimChars_eq_self_of_no_white hb.nowhite

theorem trimChars_withSuffix {base : List Char} (hb : CleanBase base) (k : Nat) :
    trimChars (withSuffix base k) = withSuffix base k :=
  trimChars_eq_self_of_no_white (withSuffix_no_white hb k)

theorem withSuffix_ne_nil (base : List Char) (k : Nat) :
    withSuffix base k ≠ [] := by
  rw [withSuffix_eq_append]
  simp

theorem existing_canonical {base : List Char} (hb : CleanBase base) (m : Nat) :
    existingOrderNumbers base (canonicalNumbers base m) = canonicalNumbers base m := by
  unfold existingOrderNumbers fetchOrderNumbers
  have hfetch : (canonicalNumbers base m).filter
      (fun s => (s == base) || likeBaseDash base s) = canonicalNumbers base m := by
    rw [List.filter_eq_self]
    intro x hx
    rcases mem_canonical_cases base hx with ⟨-, h2⟩ | ⟨k, -, -, h4⟩
    · subst h2; simp
    · subst h4
      apply Bool.or_eq_true _ _ |>.mpr
      refine Or.inr ?_
      unfold likeBaseDash
      rw [withSuffix_eq_append]
      exact isPrefixOf_append_self _ _
  rw [hfetch]
  have hmap : (canonicalNumbers base m).map trimChars = canonicalNumbers base m := by
    conv_rhs => rw [← List.map_id (canonicalNumbers base m)]
    apply List.map_congr_left
    intro x hx
    rcases mem_canonical_cases base hx with ⟨-, h2⟩ | ⟨k, -, -, h4⟩
    · subst h2; exact trimChars_base hb
    · subst h4; exact trimChars_withSuffix hb k
  rw [hmap]
  rw [List.filter_eq_self]
  intro x hx
  rcases mem_canonical_cases base hx with ⟨-, h2⟩ | ⟨k, -, -, h4⟩
  · subst h2; simpa [List.isEmpty_iff] using hb.nonempty
  · subst h4; simpa [List.isEmpty_iff] using withSuffix_ne_nil base k

theorem maxSuffixOf_canonical (base : List Char) :
    ∀ m, maxSuffixOf base (canonicalNumbers base m) = if 2 ≤ m then m else 1 := by
  intro m
  induction m with
  | zero => rfl
  | succ m ih =>
    cases m with
    | zero =>
      unfold maxSuffixOf canonicalNumbers
      rw [List.foldl_cons, matchBaseSuffix_base]
      rfl
    | succ k =>
      rw [canonicalNumbers_succ base (by omega)]
      unfold maxSuffixOf at ih ⊢
      rw [List.foldl_append, ih, List.foldl_cons, matchBaseSuffix_withSuffix,
        List.foldl_nil]
      dsimp only
      split_ifs <;> omega

theorem generateOrderNumber_canonical {base : List Char} (hb : CleanBase base)
    (m : Nat) :
    generateOrderNumber base (canonicalNumbers base m) =
      if m = 0 then base else withSuffix base (m + 1) := by
  unfold generateOrderNumber
  rw [existing_canonical hb m]
  cases m with
  | zero =>
    rw [if_neg (by simp [canonicalNumbers]), if_pos rfl]
  | succ m =>
    rw [if_neg (show ¬ (m + 1 = 0) by omega)]
    rw [if_pos (base_mem_canonical base (show 1 ≤ m + 1 by omega))]
    rw [maxSuffixOf_canonical]
    by_cases h2 : 2 ≤ m + 1
    · rw [if_pos h2]
    · rw [if_neg h2]
      have : m = 0 := by omega
      subst this
      rfl

theorem canonical_subset_le {base : List Char} {m n : Nat}
    (hsub : ∀ x ∈ canonicalNumbers base m, x ∈ canonicalNumbers base n) :
    m ≤ n := by
  cases m with
  | zero => omega
  | succ m =>
    have hbase : base ∈ canonicalNumbers base n :=
      hsub base (base_mem_canonical base (by omega))
    have hn1 : 1 ≤ n := by
      rcases mem_canonical_cases base hbase with ⟨h1, -⟩ | ⟨k, hk2, hk, -⟩
      · exact h1
      · omega
    cases m with
    | zero => omega
    | succ m2 =>
      have hws : withSuffix base (m2 + 2) ∈ canonicalNumbers base n :=
        hsub _ (withSuffix_mem_canonical base (by omega) (by omega))
      rcases mem_canonical_cases base hws with ⟨-, h2⟩ | ⟨k, -, hk, h4⟩
      · exact absurd h2 (withSuffix_ne_base base _)
      · have := withSuffix_injective h4.symm
        omega

theorem canonical_nodup (base : List Char) :
    ∀ n, (canonicalNumbers base n).Nodup := by
  intro n
  induction n with
  | zero => exact List.nodup_nil
  | succ n ih =>
    cases n with
    | zero => simp [canonicalNumbers]
    | succ m =>
      rw [canonicalNumbers_succ base (by omega)]
      apply List.Nodup.append ih (by simp)
      intro x hx hx2
      simp at hx2
      subst hx2
      rcases mem_canonical_cases base hx with ⟨-, h2⟩ | ⟨k, -, hk, h4⟩
      · exact absurd h2 (withSuffix_ne_base base _)
      · have := withSuffix_injective h4
        omega

/-- Committed same-date order numbers under interleaved `Order.create` calls.
A `commit` step allocates against any previously committed state `T`
contained in the current state `S` (read-committed snapshot; retries after a
unique-violation simply re-enter with a fresher `T`) and appends the
allocated number, which the unique constraint verified absent from `S`. -/
inductive CreateTrace (base : List Char) : List (List Char) → Prop where
  | nil : CreateTrace base []
  | commit (S T : List (List Char)) :
      CreateTrace base S → CreateTrace base T →
      (∀ x ∈ T, x ∈ S) →
      generateOrderNumber base T ∉ S →
      CreateTrace base (S ++ [generateOrderNumber base T])

theorem createTrace_canonical {base : List Char} (hb : CleanBase base) :
    ∀ {S : List (List Char)}, CreateTrace base S →
      S = canonicalNumbers base S.length := by
  intro S h
  induction h with
  | nil => rfl
  | commit S T hS hT hsub hfresh ihS ihT =>
    have hmn : T.length ≤ S.length := by
      apply @canonical_subset_le base T.length S.length
      intro x hx
      rw [← ihT] at hx
      have := hsub x hx
      rwa [ihS] at this
    rw [ihT, generateOrderNumber_canonical hb] at hfresh
    simp only [List.length_append, List.length_cons, List.length_nil]
    rw [ihT, generateOrderNumber_canonical hb]
    by_cases hT0 : T.length = 0
    · rw [if_pos hT0] at hfresh ⊢
      have hS0 : S.length = 0 := by
        by_contra hne
        apply hfresh
        rw [ihS]
        exact base_mem_canonical base (by omega)
      have hSnil : S = [] := List.length_eq_zero.mp hS0
      subst hSnil
      rfl
    · rw [if_neg hT0] at hfresh ⊢
      have hTn : S.length ≤ T.length := by
        by_contra hlt
        apply hfresh
        rw [ihS]
        exact withSuffix_mem_canonical base (by omega) (by omega)
      have heq : T.length = S.length := le_antisymm hmn hTn
      rw [heq]
      have hS1 : 1 ≤ S.length := by omega
      rw [canonicalNumbers_succ base hS1, ← ihS]

def validDate (d : JsDate) : Prop :=
  1 ≤ d.day ∧ d.day ≤ 31 ∧ 1 ≤ d.month ∧ d.month ≤ 12

instance (d : JsDate) : Decidable (validDate d) := by
  unfold validDate
  infer_instance

theorem digitChar_inj {a b : Nat} (ha : a < 10) (hb : b < 10)
    (h : Nat.digitChar a = Nat.digitChar b) : a = b := by
  have h1 := charVal_digitChar ha
  rw [← h1, h, charVal_digitChar hb]

theorem padStart2_length {l : List Char} (h : l.length ≤ 2) :
    (padStart2 l).length = 2 := by
  unfold padStart2
  simp
  omega

theorem padStart2_natChars_inj {d1 d2 : Nat} (h1 : d1 < 100) (h2 : d2 < 100)
    (h : padStart2 (natChars d1) = padStart2 (natChars d2)) : d1 = d2 := by
  unfold padStart2 at h
  by_cases ha : d1 < 10 <;> by_cases hb : d2 < 10
  · rw [natChars_lt ha, natChars_lt hb] at h
    simp at h
    exact digitChar_inj ha hb h
  · exfalso
    rw [natChars_lt ha] at h
    have hlen2 := natChars_length_two (by omega) h2
    obtain ⟨a, b, hab⟩ := List.length_eq_two.mp hlen2
    rw [hab] at h
    simp at h
    exact natChars_head_ne_zero (show d2 ≠ 0 by omega) a (by rw [hab]; rfl) h.1.symm
  · exfalso
    rw [natChars_lt hb] at h
    have hlen2 := natChars_length_two (by omega) h1
    obtain ⟨a, b, hab⟩ := List.length_eq_two.mp hlen2
    rw [hab] at h
    simp at h
    exact natChars_head_ne_zero (show d1 ≠ 0 by omega) a (by rw [hab]; rfl) h.1
  · have l1 := natChars_length_two (by omega) h1
    have l2 := natChars_length_two (by omega) h2
    rw [l1, l2] at h
    simp at h
    exact natChars_injective h

theorem buildOrderNumberBase_inj {d1 d2 : JsDate}
    (h1 : validDate d1) (h2 : validDate d2)
    (h : buildOrderNumberBase d1 = buildOrderNumberBase d2) : d1 = d2 := by
  obtain ⟨a1, b1, c1⟩ := d1
  obtain ⟨a2, b2, c2⟩ := d2
  unfold validDate at h1 h2
  dsimp only at h1 h2
  obtain ⟨-, hd1, -, hm1⟩ := h1
  obtain ⟨-, hd2, -, hm2⟩ := h2
  unfold buildOrderNumberBase at h
  dsimp only at h
  injection h with h0 h
  injection h with h0 h
  rw [List.append_assoc, List.append_assoc] at h
  obtain ⟨hday, h⟩ := List.append_inj h
    (by rw [padStart2_length (natChars_length_le_two (by omega)),
            padStart2_length (natChars_length_le_two (by omega))])
  obtain ⟨hmon, hyear⟩ := List.append_inj h
    (by rw [padStart2_length (natChars_length_le_two (by omega)),
            padStart2_length (natChars_length_le_two (by omega))])
  simp only [JsDate.mk.injEq]
  exact ⟨padStart2_natChars_inj (by omega) (by omega) hday,
         padStart2_natChars_inj (by omega) (by omega) hmon,
         natChars_injective hyear⟩

theorem dash_split :
    ∀ (l1 l2 t1 t2 : List Char), '-' ∉ l1 → '-' ∉ l2 →
      l1 ++ '-' :: t1 = l2 ++ '-' :: t2 → l1 = l2 ∧ t1 = t2 := by
  intro l1
  induction l1 with
  | nil =>
    intro l2 t1 t2 hn1 hn2 h
    cases l2 with
    | nil =>
      simp at h
      exact ⟨rfl, h⟩
    | cons b bs =>
      exfalso
      rw [List.nil_append, List.cons_append] at h
      injection h with hb h
      exact hn2 (by rw [← hb]; exact List.mem_cons_self _ _)
  | cons a as ih =>
    intro l2 t1 t2 hn1 hn2 h
    cases l2 with
    | nil =>
      exfalso
      rw [List.nil_append, List.cons_append] at h
      injection h with hb h
      exact hn1 (by rw [hb]; exact List.mem_cons_self _ _)
    | cons b bs =>
      rw [List.cons_append, List.cons_append] at h
      injection h with hab h
      have := ih bs t1 t2 (fun hm => hn1 (List.mem_cons_of_mem _ hm))
        (fun hm => hn2 (List.mem_cons_of_mem _ hm)) h
      exact ⟨by rw [hab, this.1], this.2⟩

theorem canonical_cross_disjoint {b1 b2 : List Char}
    (hb1 : CleanBase b1) (hb2 : CleanBase b2) (hne : b1 ≠ b2)
    {n1 n2 : Nat} {x y : List Char}
    (hx : x ∈ canonicalNumbers b1 n1) (hy : y ∈ canonicalNumbers b2 n2) :
    x ≠ y := by
  intro heq
  subst heq
  rcases mem_canonical_cases b1 hx with ⟨-, hx2⟩ | ⟨j, -, -, hx2⟩ <;>
    rcases mem_canonical_cases b2 hy with ⟨-, hy2⟩ | ⟨k, -, -, hy2⟩
  · exact hne (by rw [← hx2, hy2])
  · apply hb1.nodash
    rw [hx2] at hy2
    rw [hy2]
    unfold withSuffix
    rw [List.mem_append]
    exact Or.inr (List.mem_cons_self _ _)
  · apply hb2.nodash
    rw [hy2] at hx2
    rw [hx2]
    unfold withSuffix
    rw [List.mem_append]
    exact Or.inr (List.mem_cons_self _ _)
  · rw [hx2] at hy2
    unfold withSuffix at hy2
    exact hne (dash_split b1 b2 _ _ hb1.nodash hb2.nodash hy2).1

/-- C4: order numbers allocated by interleaved same-date creates are exactly
the canonical sequence — the first committed order of a date gets the bare
base `MM<dd><mm><yyyy>`, the second gets suffix `-2`, the third `-3`, and so
on — and are pairwise distinct (`Nodup`); from any nonempty committed state
the next allocation is the lowest unused suffix ≥ 2, namely `length + 1`;
and numbers allocated for two different calendar dates can never collide, so
order numbers are unique across all orders. -/
theorem claim_C4_order_number_allocation :
    (∀ (d : JsDate) (S : List (List Char)),
        validDate d → CreateTrace (buildOrderNumberBase d) S →
        S = canonicalNumbers (buildOrderNumberBase d) S.length ∧ S.Nodup) ∧
    (∀ (d : JsDate) (S : List (List Char)),
        validDate d → CreateTrace (buildOrderNumberBase d) S → S ≠ [] →
        generateOrderNumber (buildOrderNumberBase d) S =
          withSuffix (buildOrderNumberBase d) (S.length + 1)) ∧
    (∀ (d1 d2 : JsDate) (S1 S2 : List (List Char)) (x y : List Char),
        validDate d1 → validDate d2 → d1 ≠ d2 →
        CreateTrace (buildOrderNumberBase d1) S1 →
        CreateTrace (buildOrderNumberBase d2) S2 →
        x ∈ S1 → y ∈ S2 → x ≠ y) := by
  refine ⟨?_, ?_, ?_⟩
  · intro d S hv tr
    have hb := buildOrderNumberBase_clean d
    have hS := createTrace_canonical hb tr
    refine ⟨hS, ?_⟩
    rw [hS]
    exact canonical_nodup _ _
  · intro d S hv tr hne
    have hb := buildOrderNumberBase_clean d
    have hS := createTrace_canonical hb tr
    conv_lhs => rw [hS]
    rw [generateOrderNumber_canonical hb]
    rw [if_neg (by simpa [← List.length_eq_zero] using hne)]
  · intro d1 d2 S1 S2 x y hv1 hv2 hdne tr1 tr2 hx hy
    have hb1 := buildOrderNumberBase_clean d1
    have hb2 := buildOrderNumberBase_clean d2
    have hbne : buildOrderNumberBase d1 ≠ buildOrderNumberBase d2 :=
      fun he => hdne (buildOrderNumberBase_inj hv1 hv2 he)
    have hS1 := createTrace_canonical hb1 tr1
    have hS2 := createTrace_canonical hb2 tr2
    rw [hS1] at hx
    rw [hS2] at hy
    exact canonical_cross_disjoint hb1 hb2 hbne hx hy

def c4date : JsDate := ⟨12, 10, 2025⟩

def c4base : List Char := buildOrderNumberBase c4date

theorem claim_C4_witness :
    [c4base, withSuffix c4base 2] =
      canonicalNumbers c4base ([c4base, withSuffix c4base 2]).length ∧
    [c4base, withSuffix c4base 2].Nodup := by
  have t1 : CreateTrace c4base [c4base] := by
    have h := @CreateTrace.commit c4base [] [] CreateTrace.nil CreateTrace.nil
      (by intro x hx; exact hx) (by simp)
    have he : (([] : List (List Char)) ++ [generateOrderNumber c4base []]) =
        [c4base] := by decide
    rwa [he] at h
  have t2 : CreateTrace c4base [c4base, withSuffix c4base 2] := by
    have h := @CreateTrace.commit c4base [c4base] [c4base] t1 t1
      (by intro x hx; exact hx) (by decide)
    have he : ([c4base] ++ [generateOrderNumber c4base [c4base]]) =
        [c4base, withSuffix c4base 2] := by decide
    rwa [he] at h
  exact claim_C4_order_number_allocation.1 c4date
    [c4base, withSuffix c4base 2] (by decide) t2

end MountainMade
